import Mathlib

namespace RenderX

/-! SHA-256 (FIPS 180-4), executable over `Nat`. -/

def w32 (n : Nat) : Nat := n % 4294967296

def rotr (n x : Nat) : Nat := w32 (Nat.lor (Nat.shiftRight x n) (Nat.shiftLeft x (32 - n)))

def shr (n x : Nat) : Nat := Nat.shiftRight x n

def bsig0 (x : Nat) : Nat := Nat.xor (rotr 2 x) (Nat.xor (rotr 13 x) (rotr 22 x))

def bsig1 (x : Nat) : Nat := Nat.xor (rotr 6 x) (Nat.xor (rotr 11 x) (rotr 25 x))

def ssig0 (x : Nat) : Nat := Nat.xor (rotr 7 x) (Nat.xor (rotr 18 x) (shr 3 x))

def ssig1 (x : Nat) : Nat := Nat.xor (rotr 17 x) (Nat.xor (rotr 19 x) (shr 10 x))

def chf (x y z : Nat) : Nat := Nat.xor (Nat.land x y) (Nat.land (Nat.xor x 4294967295) z)

def majf (x y z : Nat) : Nat :=
  Nat.xor (Nat.land x y) (Nat.xor (Nat.land x z) (Nat.land y z))

def sha256K : List Nat :=
  [
    1116352408, 1899447441, 3049323471, 3921009573, 961987163, 1508970993,
    2453635748, 2870763221, 3624381080, 310598401, 607225278, 1426881987,
    1925078388, 2162078206, 2614888103, 3248222580, 3835390401, 4022224774,
    264347078, 604807628, 770255983, 1249150122, 1555081692, 1996064986,
    2554220882, 2821834349, 2952996808, 3210313671, 3336571891, 3584528711,
    113926993, 338241895, 666307205, 773529912, 1294757372, 1396182291,
    1695183700, 1986661051, 2177026350, 2456956037, 2730485921, 2820302411,
    3259730800, 3345764771, 3516065817, 3600352804, 4094571909, 275423344,
    430227734, 506948616, 659060556, 883997877, 958139571, 1322822218,
    1537002063, 1747873779, 1955562222, 2024104815, 2227730452, 2361852424,
    2428436474, 2756734187, 3204031479, 3329325298
  ]

def sha256H0 : List Nat :=
  [1779033703, 3144134277, 1013904242, 2773480762,
   1359893119, 2600822924, 528734635, 1541459225]

def utf8EncodeChar (c : Char) : List Nat :=
  let n := c.toNat
  if n < 128 then [n]
  else if n < 2048 then [192 + n / 64, 128 + n % 64]
  else if n < 65536 then [224 + n / 4096, 128 + (n / 64) % 64, 128 + n % 64]
  else [240 + n / 262144, 128 + (n / 4096) % 64, 128 + (n / 64) % 64, 128 + n % 64]

def utf8Encode (s : String) : List Nat := (s.data.map utf8EncodeChar).flatten

def padMessage (msg : List Nat) : List Nat :=
  let len := msg.length
  let z := (119 - len % 64) % 64
  let bitLen := 8 * len
  msg ++ [128] ++ List.replicate z 0 ++
    [bitLen / 72057594037927936 % 256, bitLen / 281474976710656 % 256,
     bitLen / 1099511627776 % 256, bitLen / 4294967296 % 256,
     bitLen / 16777216 % 256, bitLen / 65536 % 256, bitLen / 256 % 256, bitLen % 256]

def bytesToWords : List Nat → List Nat
  | b0 :: b1 :: b2 :: b3 :: rest =>
      (b0 * 16777216 + b1 * 65536 + b2 * 256 + b3) :: bytesToWords rest
  | _ => []

def toBlocksAux : Nat → List Nat → List (List Nat)
  | 0, _ => []
  | _ + 1, [] => []
  | fuel + 1, w :: rest => (w :: rest).take 16 :: toBlocksAux fuel ((w :: rest).drop 16)

def toBlocks (ws : List Nat) : List (List Nat) := toBlocksAux ws.length ws

def extendW (ws : List Nat) : Nat → List Nat
  | 0 => ws
  | n + 1 =>
      let i := ws.length
      let wi := w32 (ssig1 (ws.getD (i - 2) 0) + ws.getD (i - 7) 0 +
        ssig0 (ws.getD (i - 15) 0) + ws.getD (i - 16) 0)
      extendW (ws ++ [wi]) n

def compressRound (st : List Nat) (k : Nat) (w : Nat) : List Nat :=
  match st with
  | [a, b, c, d, e, f, g, h] =>
      let t1 := w32 (h + bsig1 e + chf e f g + k + w)
      let t2 := w32 (bsig0 a + majf a b c)
      [w32 (t1 + t2), a, b, c, w32 (d + t1), e, f, g]
  | other => other

def compressBlock (h : List Nat) (block : List Nat) : List Nat :=
  let ws := extendW block 48
  let st := (sha256K.zip ws).foldl (fun st kw => compressRound st kw.1 kw.2) h
  List.zipWith (fun x y => w32 (x + y)) h st

def sha256Words (msg : List Nat) : List Nat :=
  (toBlocks (bytesToWords (padMessage msg))).foldl compressBlock sha256H0

def hexDigit (n : Nat) : Char := if n < 10 then Char.ofNat (48 + n) else Char.ofNat (87 + n)

def wordHex (n : Nat) : List Char :=
  [hexDigit (n / 268435456 % 16), hexDigit (n / 16777216 % 16), hexDigit (n / 1048576 % 16),
   hexDigit (n / 65536 % 16), hexDigit (n / 4096 % 16), hexDigit (n / 256 % 16),
   hexDigit (n / 16 % 16), hexDigit (n % 16)]

def sha256hex (s : String) : String :=
  ⟨((sha256Words (utf8Encode s)).map wordHex).flatten⟩



/-! ## Cache key digest (src/cache.ts, `getCacheKey`) -/

/-- Hash pre-image built by `getCacheKey` in `src/cache.ts`: the template string
`{deviceType}:{url}`. -/
def hashInput (url deviceType : String) : String := deviceType ++ ":" ++ url

/-- The cache digest of `getCacheKey` (src/cache.ts): SHA-256 hex of `{deviceType}:{url}`. -/
def getCacheKeyHash (url deviceType : String) : String := sha256hex (hashInput url deviceType)

/-- The cache file path of `getCacheKey` (src/cache.ts): `path.join(cacheDir, hash + ".html")`. -/
def getCacheKeyPath (cacheDir url deviceType : String) : String :=
  cacheDir ++ "/" ++ getCacheKeyHash url deviceType ++ ".html"

/-- The metadata file path (`getMetadataPath` in src/cache.ts): the cache key plus `.meta`. -/
def getMetadataPath (cacheKey : String) : String := cacheKey ++ ".meta"

theorem append_colon_inj {d₁ u₁ d₂ u₂ : List Char} (h₁ : ':' ∉ d₁) (h₂ : ':' ∉ d₂)
    (h : d₁ ++ ':' :: u₁ = d₂ ++ ':' :: u₂) : d₁ = d₂ ∧ u₁ = u₂ := by
  induction d₁ generalizing d₂ with
  | nil =>
    cases d₂ with
    | nil => simpa using h
    | cons b bs =>
      exfalso
      apply h₂
      have hb : ':' = b := by simpa using congrArg (fun l => l.headD ' ') h
      simp [← hb]
  | cons a as ih =>
    cases d₂ with
    | nil =>
      exfalso
      apply h₁
      have ha : a = ':' := by simpa using congrArg (fun l => l.headD ' ') h
      simp [ha]
    | cons b bs =>
      have hab : a = b := by simpa using congrArg (fun l => l.headD ' ') h
      have htail : as ++ ':' :: u₁ = bs ++ ':' :: u₂ := by
        simpa [hab] using congrArg List.tail h
      have h₁' : ':' ∉ as := fun hm => h₁ (List.mem_cons_of_mem _ hm)
      have h₂' : ':' ∉ bs := fun hm => h₂ (List.mem_cons_of_mem _ hm)
      obtain ⟨hd, hu⟩ := ih h₁' h₂' htail
      exact ⟨by rw [hab, hd], hu⟩

/-- C1 counterexample: the two pairs `(url=":a", device="b")` and `(url="a", device="b:")`
differ in both components, yet `getCacheKey` digests them identically, because both build
the same pre-image string `"b::a"`. This refutes the claim that any two pairs differing in
url or deviceType yield different digests. -/
theorem C1_colon_ambiguity_counterexample :
    ((":a", "b") ≠ (("a", "b:") : String × String)) ∧
    getCacheKeyHash ":a" "b" = getCacheKeyHash "a" "b:" := by
  exact ⟨by decide, rfl⟩

/-- C1 (amended): the cache digest is deterministic — identical `(url, deviceType)` inputs
give identical hex output — and, provided the device type contains no `':'` (true of the
actual device strings `desktop`/`mobile`/`tablet`), two pairs that differ in the url or in
the deviceType build different SHA-256 pre-image strings `{deviceType}:{url}`; their
digests therefore differ unless SHA-256 itself collides on those distinct strings. -/
theorem C1_digest_deterministic_and_preimage_injective
    (u₁ d₁ u₂ d₂ : String) (h₁ : ':' ∉ d₁.data) (h₂ : ':' ∉ d₂.data) :
    (u₁ = u₂ → d₁ = d₂ → getCacheKeyHash u₁ d₁ = getCacheKeyHash u₂ d₂) ∧
    ((u₁, d₁) ≠ (u₂, d₂) → hashInput u₁ d₁ ≠ hashInput u₂ d₂) := by
  constructor
  · rintro rfl rfl; rfl
  · intro hne heq
    apply hne
    have hdata : d₁.data ++ ':' :: u₁.data = d₂.data ++ ':' :: u₂.data := by
      have h' := congrArg String.data heq
      simpa [hashInput, String.data_append] using h'
    obtain ⟨hd, hu⟩ := append_colon_inj h₁ h₂ hdata
    have hu' : u₁ = u₂ := by
      cases u₁; cases u₂; exact congrArg String.mk hu
    have hd' : d₁ = d₂ := by
      cases d₁; cases d₂; exact congrArg String.mk hd
    rw [hu', hd']

/-- Witness for C1: instantiates the amended theorem at concrete inputs. -/
theorem C1_witness :
    (':' ∉ "desktop".data) ∧
    hashInput "https://a.example/x" "desktop" ≠ hashInput "https://a.example/y" "desktop" := by
  refine ⟨by decide, ?_⟩
  exact (C1_digest_deterministic_and_preimage_injective "https://a.example/x" "desktop"
    "https://a.example/y" "desktop" (by decide) (by decide)).2 (by decide)

end RenderX

namespace RenderX

/-! ## Node `path.posix` model (used by validatePath in src/index.ts) -/

/-- Split a character list on `'/'` (like JS `split('/')`). -/
def splitSlash : List Char → List (List Char)
  | [] => [[]]
  | c :: cs =>
    if c = '/' then [] :: splitSlash cs
    else
      match splitSlash cs with
      | [] => [[c]]
      | s :: rest => (c :: s) :: rest

/-- Join segments with `'/'`. -/
def joinSlash : List (List Char) → List Char
  | [] => []
  | [s] => s
  | s :: s' :: rest => s ++ '/' :: joinSlash (s' :: rest)

/-- One step of Node's `normalizeString`: skip empty and `.` segments, handle `..`
(`allowAboveRoot` keeps leading `..` for relative paths), push everything else. -/
def normStep (allowAboveRoot : Bool) (acc : List (List Char)) (seg : List Char) :
    List (List Char) :=
  if seg = [] then acc
  else if seg = ['.'] then acc
  else if seg = ['.', '.'] then
    match acc with
    | [] => if allowAboveRoot then [seg] else []
    | t :: rest => if t = ['.', '.'] then seg :: t :: rest else rest
  else seg :: acc

/-- Node's `normalizeString`: resolve `.` and `..` segments. The accumulator is kept
reversed; the result is in path order. -/
def normSegs (allowAboveRoot : Bool) (segs : List (List Char)) : List (List Char) :=
  (segs.foldl (normStep allowAboveRoot) []).reverse

/-- Node `path.posix.normalize`. -/
def normalizeChars (p : List Char) : List Char :=
  match p with
  | [] => ['.']
  | c :: cs =>
    let abs : Bool := c = '/'
    let trailing : Bool := (c :: cs).getLast? = some '/'
    let core := joinSlash (normSegs (!abs) (splitSlash (c :: cs)))
    if core = [] then
      if abs then ['/'] else if trailing then ['.', '/'] else ['.']
    else
      let core' := if trailing then core ++ ['/'] else core
      if abs then '/' :: core' else core'

/-- Node `path.posix.resolve(base)`; `cwd` abstracts `process.cwd()` (prepended when
`base` is relative). -/
def resolveOne (cwd base : List Char) : List Char :=
  let joined := if base.head? = some '/' then base else cwd ++ '/' :: base
  let abs : Bool := joined.head? = some '/'
  let core := joinSlash (normSegs (!abs) (splitSlash joined))
  if abs then (if core = [] then ['/'] else '/' :: core)
  else (if core = [] then ['.'] else core)

/-- Node `path.posix.resolve(base, rel)`; `cwd` abstracts `process.cwd()`. -/
def resolveTwo (cwd base rel : List Char) : List Char :=
  let joined :=
    if rel.head? = some '/' then rel
    else if base.head? = some '/' then base ++ '/' :: rel
    else cwd ++ '/' :: (base ++ '/' :: rel)
  let abs : Bool := joined.head? = some '/'
  let core := joinSlash (normSegs (!abs) (splitSlash joined))
  if abs then (if core = [] then ['/'] else '/' :: core)
  else (if core = [] then ['.'] else core)

/-- `validatePath` from src/index.ts (lines 92-116): strip the leading slash, normalize,
reject `..` or absolute results, resolve against the base and require the resolved path
to start with the resolved base. -/
def stripLeadingSlash (req : List Char) : List Char :=
  if req.head? = some '/' then req.tail else req

def validatePath (cwd basePath requestedPath : List Char) : Option (List Char) :=
  let relativePath := stripLeadingSlash requestedPath
  let normalizedPath := normalizeChars relativePath
  if decide (['.', '.'] <:+: normalizedPath) || normalizedPath.head? == some '/' then none
  else
    let resolvedPath := resolveTwo cwd basePath normalizedPath
    let resolvedBase := resolveOne cwd basePath
    if resolvedBase.isPrefixOf resolvedPath then some resolvedPath else none

/-- `p` lies within directory `b` (both absolute paths): the non-empty slash segments of
`b` form a prefix of those of `p`. -/
def withinDir (b p : List Char) : Prop :=
  (splitSlash b).filter (· ≠ []) <+: (splitSlash p).filter (· ≠ [])

end RenderX

namespace RenderX

/-! ### Lemmas about splitSlash / joinSlash -/

theorem splitSlash_ne_nil (l : List Char) : splitSlash l ≠ [] := by
  cases l with
  | nil => simp [splitSlash]
  | cons c cs =>
    by_cases h : c = '/'
    · simp [splitSlash, h]
    · simp only [splitSlash, if_neg h]
      cases hs : splitSlash cs <;> simp

theorem splitSlash_append (xs ys : List Char) :
    splitSlash (xs ++ '/' :: ys) = splitSlash xs ++ splitSlash ys := by
  induction xs with
  | nil => simp [splitSlash]
  | cons c cs ih =>
    by_cases h : c = '/'
    · simp [splitSlash, h, ih]
    · simp only [List.cons_append, splitSlash, if_neg h, ih]
      simp only [List.append_eq]
      rw [ih]
      cases hs : splitSlash cs with
      | nil => exact absurd hs (splitSlash_ne_nil cs)
      | cons s rest => simp

theorem splitSlash_single {s : List Char} (h : '/' ∉ s) : splitSlash s = [s] := by
  induction s with
  | nil => simp [splitSlash]
  | cons c cs ih =>
    have hc : c ≠ '/' := fun hc => h (hc ▸ List.mem_cons_self c cs)
    have hcs : '/' ∉ cs := fun hm => h (List.mem_cons_of_mem c hm)
    simp only [splitSlash, if_neg hc, ih hcs]

theorem no_slash_of_mem_splitSlash {e l : List Char} (h : e ∈ splitSlash l) : '/' ∉ e := by
  induction l generalizing e with
  | nil =>
    simp [splitSlash] at h
    simp [h]
  | cons c cs ih =>
    by_cases hc : c = '/'
    · simp only [splitSlash, if_pos hc, List.mem_cons] at h
      rcases h with h | h
      · simp [h]
      · exact ih h
    · simp only [splitSlash, if_neg hc] at h
      cases hs : splitSlash cs with
      | nil => exact absurd hs (splitSlash_ne_nil cs)
      | cons s rest =>
        rw [hs] at h
        rcases List.mem_cons.mp h with h | h
        · subst h
          intro hm
          rcases List.mem_cons.mp hm with h' | h'
          · exact hc h'.symm
          · exact ih (hs ▸ List.mem_cons_self s rest) h'
        · exact ih (hs ▸ List.mem_cons_of_mem s h)

theorem splitSlash_head_prefix {cs s : List Char} {rest : List (List Char)}
    (h : splitSlash cs = s :: rest) : s <+: cs := by
  induction cs generalizing s rest with
  | nil =>
    simp [splitSlash] at h
    simp [h.1]
  | cons c cs' ih =>
    by_cases hc : c = '/'
    · simp only [splitSlash, if_pos hc] at h
      obtain ⟨rfl, -⟩ := List.cons.inj h
      exact List.nil_prefix
    · simp only [splitSlash, if_neg hc] at h
      cases hs : splitSlash cs' with
      | nil => exact absurd hs (splitSlash_ne_nil cs')
      | cons s₀ rest₀ =>
        rw [hs] at h
        obtain ⟨rfl, -⟩ := List.cons.inj h
        exact List.cons_prefix_cons.mpr ⟨rfl, ih hs⟩

theorem infix_of_mem_splitSlash {e l : List Char} (h : e ∈ splitSlash l) : e <:+: l := by
  induction l generalizing e with
  | nil =>
    simp [splitSlash] at h
    simp [h]
  | cons c cs ih =>
    by_cases hc : c = '/'
    · simp only [splitSlash, if_pos hc, List.mem_cons] at h
      rcases h with h | h
      · simp [h]
      · exact List.infix_cons (ih h)
    · simp only [splitSlash, if_neg hc] at h
      cases hs : splitSlash cs with
      | nil => exact absurd hs (splitSlash_ne_nil cs)
      | cons s rest =>
        rw [hs] at h
        rcases List.mem_cons.mp h with h | h
        · subst h
          exact (List.cons_prefix_cons.mpr ⟨rfl, splitSlash_head_prefix hs⟩).isInfix
        · exact List.infix_cons (ih (hs ▸ List.mem_cons_of_mem s h))

theorem joinSlash_ne_nil {segs : List (List Char)} (hne : segs ≠ [])
    (h : ∀ e ∈ segs, e ≠ []) : joinSlash segs ≠ [] := by
  cases segs with
  | nil => contradiction
  | cons s rest =>
    cases rest with
    | nil => simpa [joinSlash] using h s (List.mem_cons_self s [])
    | cons s' rest' =>
      simp only [joinSlash]
      rcases s with _ | ⟨c, cs⟩
      · simp
      · simp

theorem splitSlash_joinSlash {segs : List (List Char)} (hne : segs ≠ [])
    (h : ∀ e ∈ segs, '/' ∉ e) : splitSlash (joinSlash segs) = segs := by
  induction segs with
  | nil => contradiction
  | cons s rest ih =>
    cases rest with
    | nil => simpa [joinSlash] using splitSlash_single (h s (List.mem_cons_self s []))
    | cons s' rest' =>
      rw [joinSlash, splitSlash_append, splitSlash_single (h s (List.mem_cons_self s _)),
        ih (by simp) (fun e he => h e (List.mem_cons_of_mem s he))]
      simp

end RenderX

namespace RenderX

/-! ### Lemmas about normStep / normSegs -/

def keepSeg (e : List Char) : Bool := !(e == [] || e == ['.'])

theorem foldl_normStep_push {segs : List (List Char)} (a : Bool) (acc : List (List Char))
    (h : ∀ e ∈ segs, e ≠ ['.', '.']) :
    segs.foldl (normStep a) acc = (segs.filter keepSeg).reverse ++ acc := by
  induction segs generalizing acc with
  | nil => simp
  | cons s rest ih =>
    have hrest : ∀ e ∈ rest, e ≠ ['.', '.'] := fun e he => h e (List.mem_cons_of_mem s he)
    have hs : s ≠ ['.', '.'] := h s (List.mem_cons_self s rest)
    by_cases h0 : s = []
    · subst h0
      simp [List.foldl_cons, normStep, keepSeg, ih acc hrest]
    · by_cases h1 : s = ['.']
      · subst h1
        simp [List.foldl_cons, normStep, keepSeg, ih acc hrest]
      · rw [List.foldl_cons, show normStep a acc s = s :: acc by
          simp [normStep, h0, h1, hs], ih (s :: acc) hrest]
        have hk : keepSeg s = true := by
          simp [keepSeg, h0, h1]
        simp [List.filter_cons, hk]

theorem mem_normStep {e s : List Char} {acc : List (List Char)} {a : Bool}
    (h : e ∈ normStep a acc s) :
    e ∈ acc ∨ (e = s ∧ s ≠ [] ∧ s ≠ ['.']) ∨ e = ['.', '.'] := by
  by_cases h0 : s = []
  · rw [normStep.eq_def, if_pos h0] at h; exact Or.inl h
  · by_cases h1 : s = ['.']
    · rw [normStep.eq_def, if_neg h0, if_pos h1] at h; exact Or.inl h
    · by_cases h2 : s = ['.', '.']
      · rw [normStep.eq_def, if_neg h0, if_neg h1, if_pos h2] at h
        cases acc with
        | nil =>
          by_cases ha : a = true
          · simp [ha] at h
            right; right; rw [h, h2]
          · simp [ha] at h
        | cons t rest =>
          by_cases ht : t = ['.', '.']
          · simp [ht] at h
            rcases h with h | h | h
            · right; right; rw [h, h2]
            · left; rw [h, ht]; exact List.mem_cons_self _ _
            · left; exact List.mem_cons_of_mem t h
          · simp [ht] at h
            left; exact List.mem_cons_of_mem t h
      · rw [normStep.eq_def, if_neg h0, if_neg h1, if_neg h2] at h
        rcases List.mem_cons.mp h with h | h
        · exact Or.inr (Or.inl ⟨h, h0, h1⟩)
        · exact Or.inl h

theorem mem_foldl_normStep {e : List Char} {a : Bool} :
    ∀ {segs acc : List (List Char)}, e ∈ segs.foldl (normStep a) acc →
      e ∈ acc ∨ ((e ∈ segs ∨ e = ['.', '.']) ∧ e ≠ [] ∧ e ≠ ['.'])
  | [], _, h => Or.inl h
  | s :: rest, acc, h => by
    rcases @mem_foldl_normStep e a rest (normStep a acc s) h with h' | h'
    · rcases mem_normStep h' with h'' | ⟨he, hs0, hs1⟩ | h''
      · exact Or.inl h''
      · subst he
        exact Or.inr ⟨Or.inl (List.mem_cons_self _ _), hs0, hs1⟩
      · exact Or.inr ⟨Or.inr h'', by simp [h''], by simp [h'']⟩
    · rcases h' with ⟨hm | hdd, hne⟩
      · exact Or.inr ⟨Or.inl (List.mem_cons_of_mem s hm), hne⟩
      · exact Or.inr ⟨Or.inr hdd, hne⟩

theorem mem_normSegs {e : List Char} {segs : List (List Char)} {a : Bool}
    (h : e ∈ normSegs a segs) :
    (e ∈ segs ∨ e = ['.', '.']) ∧ e ≠ [] ∧ e ≠ ['.'] := by
  rw [normSegs, List.mem_reverse] at h
  rcases mem_foldl_normStep h with h' | h'
  · simp at h'
  · exact h'

theorem normSegs_append {s₁ s₂ : List (List Char)} (a : Bool)
    (h : ∀ e ∈ s₂, e ≠ ['.', '.']) :
    normSegs a (s₁ ++ s₂) = normSegs a s₁ ++ s₂.filter keepSeg := by
  rw [normSegs, List.foldl_append, foldl_normStep_push a _ h, List.reverse_append,
    List.reverse_reverse, normSegs]

end RenderX

namespace RenderX

theorem validatePath_confines_core {cwd base req p : List Char}
    (hb : base.head? = some '/')
    (hp : validatePath cwd base req = some p) :
    p.head? = some '/' ∧ withinDir (resolveOne cwd base) p := by
  have hbne : base ≠ [] := by
    intro h; rw [h] at hb; simp at hb
  rw [validatePath] at hp
  set r := normalizeChars (stripLeadingSlash req) with hr
  by_cases hg : (decide (['.', '.'] <:+: r) || (r.head? == some '/')) = true
  · rw [if_pos hg] at hp; simp at hp
  · rw [if_neg hg] at hp
    have hdd : ¬ (['.', '.'] <:+: r) := by
      intro h
      exact hg (by simp [h])
    have hnabs : ¬ (r.head? = some '/') := by
      intro h
      exact hg (by simp [h])
    -- p is the resolved path
    have hpeq : p = resolveTwo cwd base r := by
      by_cases hpre : (resolveOne cwd base).isPrefixOf (resolveTwo cwd base r) = true
      · rw [if_pos hpre] at hp; exact (Option.some.inj hp).symm
      · rw [if_neg hpre] at hp; simp at hp
    -- compute resolveTwo
    have hjoin : (if r.head? = some '/' then r
        else if base.head? = some '/' then base ++ '/' :: r
        else cwd ++ '/' :: (base ++ '/' :: r)) = base ++ '/' :: r := by
      rw [if_neg hnabs, if_pos hb]
    have hjhead : (base ++ '/' :: r).head? = some '/' := by
      cases base with
      | nil => exact absurd rfl hbne
      | cons c cs => simpa using hb
    -- segment computation
    have hRdd : ∀ e ∈ splitSlash r, e ≠ ['.', '.'] := by
      intro e he hdd'
      exact hdd (hdd' ▸ infix_of_mem_splitSlash he)
    have hsegs : normSegs false (splitSlash (base ++ '/' :: r)) =
        normSegs false (splitSlash base) ++ (splitSlash r).filter keepSeg := by
      rw [splitSlash_append, normSegs_append false hRdd]
    set B := normSegs false (splitSlash base) with hB
    set R := (splitSlash r).filter keepSeg with hR
    have hBne : ∀ e ∈ B, e ≠ [] := fun e he => (mem_normSegs he).2.1
    have hBsl : ∀ e ∈ B, '/' ∉ e := by
      intro e he
      rcases (mem_normSegs he).1 with h | h
      · exact no_slash_of_mem_splitSlash h
      · rw [h]; decide
    have hRne : ∀ e ∈ R, e ≠ [] := by
      intro e he
      have := List.of_mem_filter he
      simp [keepSeg] at this
      exact this.1
    have hRsl : ∀ e ∈ R, '/' ∉ e := fun e he =>
      no_slash_of_mem_splitSlash (List.mem_of_mem_filter he)
    have hBRne : ∀ e ∈ B ++ R, e ≠ [] := by
      intro e he
      rcases List.mem_append.mp he with h | h
      · exact hBne e h
      · exact hRne e h
    have hBRsl : ∀ e ∈ B ++ R, '/' ∉ e := by
      intro e he
      rcases List.mem_append.mp he with h | h
      · exact hBsl e h
      · exact hRsl e h
    -- resolveTwo unfolded
    have hrt : resolveTwo cwd base r =
        (if joinSlash (B ++ R) = [] then ['/'] else '/' :: joinSlash (B ++ R)) := by
      rw [resolveTwo]
      simp only [hjoin, hjhead, hsegs]
      simp
      rw [hsegs]
    have hro : resolveOne cwd base =
        (if joinSlash B = [] then ['/'] else '/' :: joinSlash B) := by
      simp [resolveOne, hb]
    by_cases hBR : B ++ R = []
    · -- everything collapses to the root
      have hBnil : B = [] := by
        cases hBj : B with
        | nil => rfl
        | cons x xs => rw [hBj] at hBR; simp at hBR
      rw [hpeq, hrt, hBR]
      constructor
      · simp [joinSlash]
      · rw [hro, hBnil]
        simp [joinSlash, withinDir, splitSlash]
    · have hj : joinSlash (B ++ R) ≠ [] := joinSlash_ne_nil hBR hBRne
      have hsplit : splitSlash (joinSlash (B ++ R)) = B ++ R :=
        splitSlash_joinSlash hBR hBRsl
      rw [hpeq, hrt, if_neg hj]
      constructor
      · simp
      · rw [withinDir, hro]
        have hpath : (splitSlash ('/' :: joinSlash (B ++ R))).filter (fun e => e ≠ []) =
            B ++ R := by
          have : splitSlash ('/' :: joinSlash (B ++ R)) = [] :: (B ++ R) := by
            rw [show splitSlash ('/' :: joinSlash (B ++ R)) =
              [] :: splitSlash (joinSlash (B ++ R)) by simp [splitSlash], hsplit]
          rw [this]
          rw [List.filter_cons]
          simp only [decide_not]
          rw [List.filter_eq_self.mpr]
          · simp
          · intro e he
            simpa using hBRne e he
        by_cases hBnil : B = []
        · rw [if_pos (by rw [hBnil]; rfl), hpath]
          simp [splitSlash]
        · have hjB : joinSlash B ≠ [] := joinSlash_ne_nil hBnil hBne
          rw [if_neg hjB, hpath]
          have hsplitB : splitSlash ('/' :: joinSlash B) = [] :: B := by
            rw [show splitSlash ('/' :: joinSlash B) =
              [] :: splitSlash (joinSlash B) by simp [splitSlash],
              splitSlash_joinSlash hBnil hBsl]
          rw [hsplitB, List.filter_cons]
          simp only [decide_not]
          rw [List.filter_eq_self.mpr]
          · simp only [decide_True, Bool.not_true, if_neg]
            exact List.prefix_append B R
          · intro e he
            simpa using hBne e he

end RenderX

namespace RenderX

theorem validatePath_rejects {cwd base req : List Char}
    (h : (['.', '.'] <:+: normalizeChars (stripLeadingSlash req)) ∨
      (normalizeChars (stripLeadingSlash req)).head? = some '/') :
    validatePath cwd base req = none := by
  rw [validatePath]
  rcases h with h | h
  · simp [h]
  · simp [h]

/-- C5: for every absolute base directory and every requested path, `validatePath` returns
either `none` (a rejection, handled as 404) or an absolute path lying within the base
directory (the base's slash segments are a prefix of the result's); moreover any request
whose normalized relative form contains `..` or is absolute is rejected. Hence no path
outside the configured source directory is ever produced. -/
theorem C5_validatePath_never_escapes_base (cwd base req : List Char)
    (hb : base.head? = some '/') :
    (∀ p, validatePath cwd base req = some p →
      p.head? = some '/' ∧ withinDir (resolveOne cwd base) p) ∧
    ((['.', '.'] <:+: normalizeChars (stripLeadingSlash req)) ∨
        (normalizeChars (stripLeadingSlash req)).head? = some '/' →
      validatePath cwd base req = none) :=
  ⟨fun _ hp => validatePath_confines_core hb hp, validatePath_rejects⟩

/-- Witness for C5 at a concrete base and request path. -/
theorem C5_witness :
    validatePath "/srv".data "/srv/hosts/app".data "/assets/app.js".data =
      some "/srv/hosts/app/assets/app.js".data ∧
    "/srv/hosts/app/assets/app.js".data.head? = some '/' ∧
    withinDir (resolveOne "/srv".data "/srv/hosts/app".data)
      "/srv/hosts/app/assets/app.js".data := by
  have h := (C5_validatePath_never_escapes_base "/srv".data "/srv/hosts/app".data
      "/assets/app.js".data (by decide)).1 "/srv/hosts/app/assets/app.js".data (by decide)
  exact ⟨by decide, h.1, h.2⟩

end RenderX

namespace RenderX

/-! ## Rendering strategies (src/config.ts) -/

inductive RenderingStrategy
  | smartSsr
  | ssr
  | csr
deriving DecidableEq, Repr

/-! ## Readiness protocol (src/renderer.ts, `waitForReadiness`) -/

/-- Outcome of one awaited browser operation: resolves, or rejects with an error message. -/
inductive StepOutcome
  | ok
  | err (msg : String)
deriving DecidableEq, Repr

def stepExcept : StepOutcome → Except String Unit
  | .ok => .ok ()
  | .err m => .error m

/-- An inner `try { ... } catch { /* continue */ }`: every failure is swallowed. -/
def catchAll (r : Except String Unit) : Except String Unit :=
  match r with
  | .ok _ => .ok ()
  | .error _ => .ok ()

/-- Environment of one `waitForReadiness` call: the outcome of each awaited wait. -/
structure ReadinessEnv where
  nav : StepOutcome
  netIdle1 : StepOutcome
  selectorWaits : List StepOutcome
  textPoll : StepOutcome
  netIdle2 : StepOutcome
deriving DecidableEq, Repr

/-- The outer catch of `waitForReadiness` (src/renderer.ts lines 1334-1339) rethrows only
errors whose message does not contain the substring `"timeout"` (JS `String.includes`,
case-sensitive). -/
def errMentionsTimeout (m : String) : Bool := decide ("timeout".data <:+: m.data)

/-- `waitForReadiness` (src/renderer.ts lines 1263-1340). Step 1 (navigation) is not
guarded by an inner catch; steps 2-5 each swallow their own failure. The selector loop
of step 3 sets `rendered` when some selector wait succeeds; otherwise the text poll runs
with its failure swallowed. The outer catch swallows errors mentioning "timeout". -/
def waitForReadiness (env : ReadinessEnv) : Except String Unit :=
  let body : Except String Unit :=
    (stepExcept env.nav).bind fun _ =>
      (catchAll (stepExcept env.netIdle1)).bind fun _ =>
        (let rendered := env.selectorWaits.any (fun o => o == StepOutcome.ok)
         if rendered then Except.ok () else catchAll (stepExcept env.textPoll)).bind fun _ =>
          catchAll (stepExcept env.netIdle2)
  match body with
  | .ok _ => .ok ()
  | .error m => if errMentionsTimeout m then .ok () else .error m

/-! ## Render engine admission (src/renderer.ts, `render`) -/

/-- Admission-counter events of one render call: denied at capacity, or admitted
(increment) and released (the decrement in `finally`). -/
inductive AdmissionEvent
  | grant
  | release
  | deny
deriving DecidableEq, Repr

/-- Environment of one `render` call: outcomes of launch, context/page open, the
readiness waits, the HTML extraction, and whether cleanup exceeds its 5 s timeout. -/
structure RenderEnv where
  launch : StepOutcome
  contextOpen : StepOutcome
  pageOpen : StepOutcome
  readiness : ReadinessEnv
  contentResult : Except String String
  cleanupHangs : Bool
deriving Repr

/-- The `try` block of `render` (src/renderer.ts lines 1372-1430): launch the browser,
open context and page, wait for readiness, extract HTML, optimize unless the strategy is
`ssr` (`postProcess` abstracts `optimizeHtmlForSEO`). -/
def renderBody (postProcess : String → String) (strategy : RenderingStrategy)
    (env : RenderEnv) : Except String String :=
  (stepExcept env.launch).bind fun _ =>
    (stepExcept env.contextOpen).bind fun _ =>
      (stepExcept env.pageOpen).bind fun _ =>
        (waitForReadiness env.readiness).bind fun _ =>
          env.contentResult.map fun html =>
            if strategy ≠ RenderingStrategy.ssr then postProcess html else html

structure RenderRun where
  result : Except String String
  events : List AdmissionEvent
deriving Repr

/-- `render` (src/renderer.ts lines 1352-1475): fail fast with "Max concurrency limit
reached" when `activeRequests >= maxConcurrency`; otherwise increment the counter, run the
body, and in `finally` race cleanup against its 5 s timeout — both outcomes resolve — and
decrement the counter exactly once. -/
def render (postProcess : String → String) (strategy : RenderingStrategy)
    (maxConcurrency active : Nat) (env : RenderEnv) : RenderRun :=
  if maxConcurrency ≤ active then
    { result := .error "Max concurrency limit reached", events := [.deny] }
  else
    { result := renderBody postProcess strategy env, events := [.grant, .release] }

/-- C2 counterexample: a step-1 navigation timeout (Playwright-style message containing
"timeout") is swallowed by the outer catch of `waitForReadiness`, so the render continues
and returns the extracted HTML instead of failing. This refutes the claim that a step-1
navigation timeout causes the render to fail with an error. -/
theorem C2_nav_timeout_tolerated_counterexample :
    (render id RenderingStrategy.ssr 10 0
      { launch := .ok, contextOpen := .ok, pageOpen := .ok,
        readiness := { nav := .err "Navigation timeout of 10000 ms exceeded",
                       netIdle1 := .ok, selectorWaits := [.ok], textPoll := .ok,
                       netIdle2 := .ok },
        contentResult := .ok "<html>partial</html>", cleanupHangs := false }).result
      = .ok "<html>partial</html>" := by rfl

/-- C2 (amended): in `waitForReadiness`, a step-1 navigation failure is fatal exactly when
its error message does not contain the substring "timeout"; step-1 errors whose message
mentions "timeout" (in particular navigation timeouts) are swallowed like every later
step, and any outcome of steps 2-5 is tolerated, the render continuing with whatever HTML
is present. -/
theorem C2_readiness_fault_tolerance (env : ReadinessEnv) :
    (∀ m, env.nav = .err m → errMentionsTimeout m = false → waitForReadiness env = .error m) ∧
    (∀ m, env.nav = .err m → errMentionsTimeout m = true → waitForReadiness env = .ok ()) ∧
    (env.nav = .ok → waitForReadiness env = .ok ()) := by
  obtain ⟨nav, ni1, sel, tp, ni2⟩ := env
  refine ⟨fun m hm ht => ?_, fun m hm ht => ?_, fun hnav => ?_⟩
  · simp only at hm
    subst hm
    rw [waitForReadiness]
    simp [stepExcept, Except.bind, ht]
  · simp only at hm
    subst hm
    rw [waitForReadiness]
    simp [stepExcept, Except.bind, ht]
  · simp only at hnav
    subst hnav
    rw [waitForReadiness]
    cases hsel : sel.any (fun o => o == StepOutcome.ok) <;>
      cases ni1 <;> cases tp <;> cases ni2 <;>
        simp [stepExcept, catchAll, Except.bind, hsel]

/-- Witness for C2 at a concrete readiness environment. -/
theorem C2_witness :
    waitForReadiness { nav := .err "net::ERR_CONNECTION_REFUSED",
                       netIdle1 := .ok, selectorWaits := [], textPoll := .ok,
                       netIdle2 := .ok }
      = .error "net::ERR_CONNECTION_REFUSED" :=
  (C2_readiness_fault_tolerance _).1 "net::ERR_CONNECTION_REFUSED" rfl (by decide)

end RenderX

namespace RenderX

/-! ## Admission counter accounting (C9) -/

def eventVal : AdmissionEvent → Int
  | .grant => 1
  | .release => -1
  | .deny => 0

def runCounter (c : Int) : List AdmissionEvent → Int
  | [] => c
  | e :: es => runCounter (c + eventVal e) es

/-- The counter stays non-negative along the trace, starting from `c`. -/
def traceNonneg (c : Int) : List AdmissionEvent → Prop
  | [] => True
  | e :: es => 0 ≤ c + eventVal e ∧ traceNonneg (c + eventVal e) es

/-- Pick the next event from one of the per-job event queues. -/
inductive PickHead :
    List (List AdmissionEvent) → AdmissionEvent → List (List AdmissionEvent) → Prop
  | here {x rest ls} : PickHead ((x :: rest) :: ls) x (rest :: ls)
  | there {l ls x ls'} : PickHead ls x ls' → PickHead (l :: ls) x (l :: ls')

/-- `Merges jobs t`: `t` is an interleaving of the per-job event queues that runs every
queue to completion, preserving each job's internal order. -/
inductive Merges : List (List AdmissionEvent) → List AdmissionEvent → Prop
  | done {ls} (h : ∀ l ∈ ls, l = []) : Merges ls []
  | step {ls x ls' t} (hp : PickHead ls x ls') (hm : Merges ls' t) : Merges ls (x :: t)

/-- Shapes a job's remaining event queue can take during execution. -/
def JobTail (l : List AdmissionEvent) : Prop :=
  l = [] ∨ l = [.deny] ∨ l = [.grant, .release] ∨ l = [.release]

/-- Number of jobs currently holding an admission slot (admitted, release pending). -/
def owed (ls : List (List AdmissionEvent)) : Nat :=
  ls.countP (fun l => l == [AdmissionEvent.release])

theorem pickHead_owed {ls ls' : List (List AdmissionEvent)} {x : AdmissionEvent}
    (hp : PickHead ls x ls') (hok : ∀ l ∈ ls, JobTail l) :
    (∀ l ∈ ls', JobTail l) ∧
      ((x = .deny ∧ owed ls' = owed ls) ∨
       (x = .grant ∧ owed ls' = owed ls + 1) ∨
       (x = .release ∧ owed ls = owed ls' + 1)) := by
  induction hp with
  | here =>
    rename_i x rest ls
    have hj := hok (x :: rest) (List.mem_cons_self _ _)
    have hrest : ∀ l ∈ ls, JobTail l := fun l hl => hok l (List.mem_cons_of_mem _ hl)
    have htail : ∀ t, JobTail t → ∀ l ∈ t :: ls, JobTail l := by
      intro t ht l hl
      rcases List.mem_cons.mp hl with rfl | hl
      · exact ht
      · exact hrest l hl
    rcases hj with h | h | h | h
    · exact absurd h (by simp)
    · obtain ⟨rfl, rfl⟩ := List.cons.inj h
      refine ⟨htail [] (Or.inl rfl), Or.inl ⟨rfl, ?_⟩⟩
      simp [owed, List.countP_cons]
    · obtain ⟨rfl, rfl⟩ := List.cons.inj h
      refine ⟨htail [.release] (Or.inr (Or.inr (Or.inr rfl))), Or.inr (Or.inl ⟨rfl, ?_⟩)⟩
      simp [owed, List.countP_cons]
    · obtain ⟨rfl, rfl⟩ := List.cons.inj h
      refine ⟨htail [] (Or.inl rfl), Or.inr (Or.inr ⟨rfl, ?_⟩)⟩
      simp [owed, List.countP_cons]
  | there hp ih =>
    rename_i l ls x ls'
    have hl := hok l (List.mem_cons_self _ _)
    have hls : ∀ m ∈ ls, JobTail m := fun m hm => hok m (List.mem_cons_of_mem _ hm)
    obtain ⟨hok', hcase⟩ := ih hls
    refine ⟨?_, ?_⟩
    · intro m hm
      rcases List.mem_cons.mp hm with rfl | hm
      · exact hl
      · exact hok' m hm
    · have hsplit : owed (l :: ls) = owed ls + (if l == [AdmissionEvent.release] then 1 else 0) ∧
          owed (l :: ls') = owed ls' + (if l == [AdmissionEvent.release] then 1 else 0) := by
        constructor <;> simp [owed, List.countP_cons]
      rcases hcase with ⟨hx, ho⟩ | ⟨hx, ho⟩ | ⟨hx, ho⟩
      · exact Or.inl ⟨hx, by omega⟩
      · exact Or.inr (Or.inl ⟨hx, by omega⟩)
      · exact Or.inr (Or.inr ⟨hx, by omega⟩)

end RenderX

namespace RenderX

theorem merges_counter {ls : List (List AdmissionEvent)} {t : List AdmissionEvent}
    (hm : Merges ls t) (hok : ∀ l ∈ ls, JobTail l) :
    runCounter (owed ls) t = 0 ∧ traceNonneg (owed ls) t := by
  induction hm with
  | done h =>
    rename_i ls0
    have h0 : owed ls0 = 0 := by
      rw [owed, List.countP_eq_zero]
      intro l hl
      simp [h l hl]
    rw [h0]
    exact ⟨rfl, trivial⟩
  | step hp hm ih =>
    rename_i ls x ls' t
    obtain ⟨hok', hcase⟩ := pickHead_owed hp hok
    obtain ⟨ihr, ihn⟩ := ih hok'
    have hkey : (owed ls : Int) + eventVal x = owed ls' := by
      rcases hcase with ⟨rfl, ho⟩ | ⟨rfl, ho⟩ | ⟨rfl, ho⟩ <;> simp [eventVal] <;> omega
    constructor
    · rw [runCounter, hkey]
      exact ihr
    · refine ⟨by rw [hkey]; positivity, ?_⟩
      rw [hkey]
      exact ihn

end RenderX

namespace RenderX

/-- C9: admission accounting of `render`. At capacity the call fails fast emitting no
counter events; an admitted job increments the counter once and the `finally` block
releases it exactly once, whatever the outcome of launch, navigation, extraction or the
cleanup-timeout race. Consequently any interleaved execution of finitely many render
calls drives the counter from 0 back to 0 and never below 0. -/
theorem C9_admission_counter_balanced
    (pp : String → String) (strat : RenderingStrategy) (maxC active : Nat)
    (env : RenderEnv) :
    (maxC ≤ active →
      render pp strat maxC active env =
        { result := .error "Max concurrency limit reached", events := [.deny] }) ∧
    (active < maxC → (render pp strat maxC active env).events = [.grant, .release]) ∧
    (∀ jobs t, (∀ l ∈ jobs, ∃ pp' strat' maxC' active' env',
        l = (render pp' strat' maxC' active' env').events) →
      Merges jobs t → runCounter 0 t = 0 ∧ traceNonneg 0 t) := by
  refine ⟨fun h => ?_, fun h => ?_, fun jobs t hjobs hm => ?_⟩
  · rw [render, if_pos h]
  · rw [render, if_neg (Nat.not_le.mpr h)]
  · have hshape : ∀ l ∈ jobs, l = [AdmissionEvent.deny] ∨
        l = [AdmissionEvent.grant, AdmissionEvent.release] := by
      intro l hl
      obtain ⟨pp', strat', maxC', active', env', hl'⟩ := hjobs l hl
      rw [render] at hl'
      by_cases hc : maxC' ≤ active'
      · rw [if_pos hc] at hl'
        exact Or.inl hl'
      · rw [if_neg hc] at hl'
        exact Or.inr hl'
    have hok : ∀ l ∈ jobs, JobTail l := by
      intro l hl
      rcases hshape l hl with h | h
      · exact Or.inr (Or.inl h)
      · exact Or.inr (Or.inr (Or.inl h))
    have h0 : owed jobs = 0 := by
      rw [owed, List.countP_eq_zero]
      intro l hl
      rcases hshape l hl with h | h <;> simp [h]
    have := merges_counter hm hok
    rwa [h0] at this
  
/-- A fully successful render environment used by witnesses. -/
def envOkC9 : RenderEnv :=
  { launch := .ok, contextOpen := .ok, pageOpen := .ok,
    readiness := { nav := .ok, netIdle1 := .ok, selectorWaits := [.ok], textPoll := .ok,
                   netIdle2 := .ok },
    contentResult := .ok "<html></html>", cleanupHangs := true }

/-- Witness for C9: a concrete interleaving of an admitted job and a denied job. -/
theorem C9_witness :
    runCounter 0 [AdmissionEvent.grant, AdmissionEvent.deny, AdmissionEvent.release] = 0 ∧
    traceNonneg 0 [AdmissionEvent.grant, AdmissionEvent.deny, AdmissionEvent.release] := by
  have hmerge : Merges [[AdmissionEvent.grant, AdmissionEvent.release],
      [AdmissionEvent.deny]]
      [AdmissionEvent.grant, AdmissionEvent.deny, AdmissionEvent.release] :=
    Merges.step PickHead.here
      (Merges.step (PickHead.there PickHead.here)
        (Merges.step PickHead.here (Merges.done (by simp))))
  refine (C9_admission_counter_balanced id RenderingStrategy.csr 1 0 envOkC9).2.2
    [[AdmissionEvent.grant, AdmissionEvent.release], [AdmissionEvent.deny]]
    [AdmissionEvent.grant, AdmissionEvent.deny, AdmissionEvent.release] ?_ hmerge
  intro l hl
  rcases List.mem_cons.mp hl with rfl | hl
  · exact ⟨id, RenderingStrategy.csr, 1, 0, envOkC9, by rfl⟩
  · rcases List.mem_cons.mp hl with rfl | hl
    · exact ⟨id, RenderingStrategy.csr, 1, 1, envOkC9, by rfl⟩
    · simp at hl

end RenderX

namespace RenderX

/-! ## Cache store `get` (src/cache.ts, lines 139-194) -/

/-- Result of one `fs.readFile`: content, ENOENT, or another I/O error. -/
inductive FileRead (α : Type)
  | ok (content : α)
  | enoent
  | ioError
deriving DecidableEq, Repr

/-- Contents of a metadata file: JSON that parses to a `CacheMeta`, or text on which
`JSON.parse` throws. -/
structure CacheMeta where
  expiresAt : Int
  url : String
  deviceType : String
deriving DecidableEq, Repr

inductive MetaContent
  | json (m : CacheMeta)
  | malformed
deriving DecidableEq, Repr

/-- The file-system state relevant to one cache entry, plus whether `ensureCacheDir`
succeeds. -/
structure CacheEntryFs where
  dirReady : Bool
  metaFile : FileRead MetaContent
  htmlFile : FileRead String
deriving DecidableEq, Repr

/-- Observable outcome of `cache.get`: the returned value and which of the two entry
files had an unlink issued against them. -/
structure CacheGetOutcome where
  result : Option String
  metaDeleted : Bool
  htmlDeleted : Bool
deriving DecidableEq, Repr

/-- `isExpired` (src/cache.ts lines 126-128): `Date.now() > metadata.expiresAt`. -/
def isExpired (now : Int) (m : CacheMeta) : Bool := now > m.expiresAt

/-- `cache.get` (src/cache.ts lines 139-194): metadata read errors (ENOENT, other I/O
errors, JSON parse failures) are misses; an expired entry has both files unlinked; a
fresh entry returns the HTML, deleting the dangling metadata when the HTML file is
missing; other HTML read errors are logged misses. The outer catch turns directory
initialization failures into misses as well. -/
def cacheGet (now : Int) (fs : CacheEntryFs) : CacheGetOutcome :=
  if !fs.dirReady then { result := none, metaDeleted := false, htmlDeleted := false }
  else
    match fs.metaFile with
    | .enoent => { result := none, metaDeleted := false, htmlDeleted := false }
    | .ioError => { result := none, metaDeleted := false, htmlDeleted := false }
    | .ok .malformed => { result := none, metaDeleted := false, htmlDeleted := false }
    | .ok (.json m) =>
      if isExpired now m then { result := none, metaDeleted := true, htmlDeleted := true }
      else
        match fs.htmlFile with
        | .ok html => { result := some html, metaDeleted := false, htmlDeleted := false }
        | .enoent => { result := none, metaDeleted := true, htmlDeleted := false }
        | .ioError => { result := none, metaDeleted := false, htmlDeleted := false }

/-- C7: `cache.get` returns the stored HTML iff the cache directory is ready, the
metadata file exists and parses, `now ≤ expiresAt`, and the HTML file reads; an entry
found expired has both files deleted and misses; a missing HTML file with metadata
present has the dangling metadata deleted and misses; metadata I/O errors, parse
failures and HTML I/O errors are misses, never thrown errors. -/
theorem C7_cache_get_contract (now : Int) (fs : CacheEntryFs) :
    (∀ h, (cacheGet now fs).result = some h ↔
      (fs.dirReady = true ∧ ∃ m, fs.metaFile = .ok (.json m) ∧ now ≤ m.expiresAt ∧
        fs.htmlFile = .ok h)) ∧
    (∀ m, fs.dirReady = true → fs.metaFile = .ok (.json m) → m.expiresAt < now →
      cacheGet now fs = { result := none, metaDeleted := true, htmlDeleted := true }) ∧
    (∀ m, fs.dirReady = true → fs.metaFile = .ok (.json m) → now ≤ m.expiresAt →
      fs.htmlFile = .enoent →
      cacheGet now fs = { result := none, metaDeleted := true, htmlDeleted := false }) ∧
    (fs.metaFile = .ioError ∨ fs.metaFile = .ok .malformed →
      cacheGet now fs = { result := none, metaDeleted := false, htmlDeleted := false }) ∧
    (∀ m, fs.dirReady = true → fs.metaFile = .ok (.json m) → now ≤ m.expiresAt →
      fs.htmlFile = .ioError →
      cacheGet now fs = { result := none, metaDeleted := false, htmlDeleted := false }) := by
  obtain ⟨dir, mf, hf⟩ := fs
  refine ⟨fun h => ?_, fun m h1 h2 h3 => ?_, fun m h1 h2 h3 h4 => ?_, fun h => ?_,
    fun m h1 h2 h3 h4 => ?_⟩
  · cases dir
    · cases mf with
      | enoent => simp [cacheGet]
      | ioError => simp [cacheGet]
      | ok mc => cases mc <;> simp [cacheGet]
    · cases mf with
      | enoent => simp [cacheGet]
      | ioError => simp [cacheGet]
      | ok mc =>
        cases mc with
        | malformed => simp [cacheGet]
        | json m =>
          by_cases hex : m.expiresAt < now
          · simp [cacheGet, isExpired, hex]
          · cases hf with
            | ok content =>
              simp [cacheGet, isExpired, hex]
              exact fun _ => by omega
            | enoent => simp [cacheGet, isExpired, hex]
            | ioError => simp [cacheGet, isExpired, hex]
  · simp only at h1 h2
    subst h1 h2
    simp [cacheGet, isExpired]
    omega
  · simp only at h1 h2 h4
    subst h1 h2 h4
    simp [cacheGet, isExpired]
    omega
  · rcases h with h | h <;> (simp only at h; subst h; cases dir <;> simp [cacheGet])
  · simp only at h1 h2 h4
    subst h1 h2 h4
    simp [cacheGet, isExpired]
    omega

end RenderX

namespace RenderX

/-- Witness for C7: a concrete expired entry misses and has both files deleted. -/
theorem C7_witness :
    cacheGet 100 { dirReady := true,
                   metaFile := .ok (.json { expiresAt := 50,
                                            url := "https://a.example/",
                                            deviceType := "desktop" }),
                   htmlFile := .ok "<html></html>" }
      = { result := none, metaDeleted := true, htmlDeleted := true } :=
  (C7_cache_get_contract 100 _).2.1 _ rfl rfl (by decide)

/-! ## Device-type handling of the HTTP endpoints (C10) -/

/-- The device whitelist of POST /cache/invalidate (src/index.ts line 801). -/
def validDevices : List String := ["desktop", "mobile", "tablet"]

/-- GET /render device handling (src/index.ts line 735), `(req.query.device) || 'desktop'`:
the query value verbatim, except that an absent or empty (JS-falsy) value defaults to
"desktop". -/
def renderEndpointDeviceType (device : Option String) : String :=
  match device with
  | some d => if d = "" then "desktop" else d
  | none => "desktop"

/-- POST /cache/invalidate device handling (src/index.ts line 802),
`device && validDevices.includes(device) ? device : 'desktop'`: falsy or
non-whitelisted values are replaced by "desktop". -/
def invalidateDeviceType (device : Option String) : String :=
  match device with
  | some d => if d ≠ "" ∧ validDevices.contains d then d else "desktop"
  | none => "desktop"

/-- The cache file GET /render reads and writes for a url/device pair. -/
def renderEndpointCachePath (cacheDir url : String) (device : Option String) : String :=
  getCacheKeyPath cacheDir url (renderEndpointDeviceType device)

/-- The two files POST /cache/invalidate unlinks (src/cache.ts `invalidate`). -/
def invalidateTargets (cacheDir url : String) (device : Option String) : List String :=
  let key := getCacheKeyPath cacheDir url (invalidateDeviceType device)
  [key, getMetadataPath key]

theorem compressRound_length (st : List Nat) (k w : Nat) :
    (compressRound st k w).length = st.length := by
  rw [compressRound.eq_def]
  split <;> simp_all

theorem compressBlock_length (h block : List Nat) :
    (compressBlock h block).length = h.length := by
  rw [compressBlock]
  have hfold : ∀ (l : List (Nat × Nat)) (st : List Nat),
      (l.foldl (fun st (kw : Nat × Nat) => compressRound st kw.1 kw.2) st).length
        = st.length := by
    intro l
    induction l with
    | nil => intro st; rfl
    | cons x xs ih =>
      intro st
      rw [List.foldl_cons, ih, compressRound_length]
  simp [hfold]

theorem sha256Words_length (msg : List Nat) : (sha256Words msg).length = 8 := by
  rw [sha256Words]
  have : ∀ (bs : List (List Nat)) (h : List Nat),
      (bs.foldl compressBlock h).length = h.length := by
    intro bs
    induction bs with
    | nil => intro st; rfl
    | cons b bs ih =>
      intro st
      rw [List.foldl_cons, ih, compressBlock_length]
  rw [this]
  rfl

theorem sha256hex_length (s : String) : (sha256hex s).length = 64 := by
  have hW : ∀ ws : List Nat, ((ws.map wordHex).flatten).length = 8 * ws.length := by
    intro ws
    induction ws with
    | nil => rfl
    | cons w ws ih =>
      simp only [List.map_cons, List.flatten_cons, List.length_append, ih, wordHex]
      simp [List.length_cons]
      ring
  show ((sha256Words (utf8Encode s)).map wordHex).flatten.length = 64
  rw [hW, sha256Words_length]

/-- C10: GET /render caches under the verbatim device string when the query value is
truthy (absent or empty values default to "desktop") while POST /cache/invalidate
collapses any device outside {desktop, mobile, tablet} to "desktop"; for a non-empty
device outside the whitelist the invalidate endpoint only unlinks the desktop-keyed
files, whose SHA-256 pre-image differs from the entry's, so — barring a SHA-256
collision, and provably at the concrete device "phone" — the cached entry is never
removed. -/
theorem C10_invalidate_misses_custom_device (cacheDir url d : String)
    (hd : d ∉ validDevices) (hne0 : d ≠ "") :
    renderEndpointDeviceType (some d) = d ∧
    renderEndpointDeviceType (some "") = "desktop" ∧
    renderEndpointDeviceType none = "desktop" ∧
    invalidateDeviceType (some d) = "desktop" ∧
    hashInput url d ≠ hashInput url "desktop" ∧
    (getCacheKeyHash url d ≠ getCacheKeyHash url "desktop" →
      renderEndpointCachePath cacheDir url (some d) ∉ invalidateTargets cacheDir url (some d)) ∧
    getCacheKeyHash "https://a.example/p" "phone" ≠
      getCacheKeyHash "https://a.example/p" "desktop" := by
  have hdne : d ≠ "desktop" := fun h => hd (h ▸ List.mem_cons_self _ _)
  have hcont : validDevices.contains d = false := by
    by_contra hcc
    rw [Bool.not_eq_false] at hcc
    exact hd (by simpa using hcc)
  have hren : renderEndpointDeviceType (some d) = d := by
    rw [renderEndpointDeviceType, if_neg hne0]
  have hinv : invalidateDeviceType (some d) = "desktop" := by
    rw [invalidateDeviceType]
    simp [hcont]
    exact fun _ hmm => absurd hmm hd
  refine ⟨hren, rfl, rfl, hinv, ?_, ?_, by decide⟩
  · intro heq
    apply hdne
    have hdata := congrArg String.data heq
    simp only [hashInput, String.data_append] at hdata
    have hcm : d.data ++ (':' :: url.data) = "desktop".data ++ (':' :: url.data) := by
      simpa using hdata
    have hdd := List.append_cancel_right hcm
    cases d
    exact congrArg String.mk hdd
  · intro hne hmem
    rw [invalidateTargets, hinv] at hmem
    rcases List.mem_cons.mp hmem with hmem | hmem
    · apply hne
      have hdata := congrArg String.data hmem
      simp only [renderEndpointCachePath, hren,
        getCacheKeyPath, String.data_append] at hdata
      have h1 := List.append_cancel_right hdata
      have h2 := List.append_cancel_left h1
      cases hg : getCacheKeyHash url d
      cases hg2 : getCacheKeyHash url "desktop"
      rw [hg, hg2] at h2
      exact congrArg String.mk h2
    · rcases List.mem_cons.mp hmem with hmem | hmem
      · exfalso
        have hlen := congrArg String.length hmem
        have e1 : (getCacheKeyHash url d).length = 64 := sha256hex_length _
        have e2 : (getCacheKeyHash url "desktop").length = 64 := sha256hex_length _
        have c1 : ("/" : String).length = 1 := rfl
        have c2 : (".html" : String).length = 5 := rfl
        have c3 : (".meta" : String).length = 5 := rfl
        simp only [renderEndpointCachePath, hren,
          getCacheKeyPath, getMetadataPath, String.length_append, e1, e2, c1, c2, c3] at hlen
        omega
      · simp at hmem

/-- Witness for C10 at the concrete device "phone". -/
theorem C10_witness :
    renderEndpointDeviceType (some "phone") = "phone" ∧
    invalidateDeviceType (some "phone") = "desktop" ∧
    renderEndpointCachePath "/c" "https://a.example/p" (some "phone") ∉
      invalidateTargets "/c" "https://a.example/p" (some "phone") := by
  have h := C10_invalidate_misses_custom_device "/c" "https://a.example/p" "phone"
    (by decide) (by decide)
  refine ⟨h.1, h.2.2.2.1, h.2.2.2.2.2.1 ?_⟩
  decide

end RenderX

namespace RenderX

/-! ## Configuration (src/config.ts) -/

structure HostConfig where
  source : String
  host : String
  isActive : Option Bool := none
  timeoutMs : Option Nat := none
  parallelRenders : Option Nat := none
  bots : Option (List String) := none
  strategy : Option RenderingStrategy := none
  rootSelector : Option String := none
deriving DecidableEq, Repr

structure GlobalConfig where
  port : Nat
  parallelRenders : Nat
  bots : List String
  cacheCleanupInterval : Option Nat := none
  strategy : RenderingStrategy
  hosts : List HostConfig
  rootSelector : Option String := none
  clearCacheOnStartup : Option Bool := none
  timeoutMs : Option Nat := none
  maxConcurrency : Option Nat := none
deriving DecidableEq, Repr

/-! ## Glob matching (src/config.ts, `matchesGlobPattern`) -/

/-- The placeholder string `matchesGlobPattern` substitutes for `*` before escaping. -/
def placeholder : List Char := "__WILDCARD_PLACEHOLDER__".data

/-- The first replace step: every `*` becomes the placeholder text (JS global replace). -/
def replaceStar : List Char → List Char
  | [] => []
  | c :: cs => if c = '*' then placeholder ++ replaceStar cs else c :: replaceStar cs

/-- A token of the regex `matchesGlobPattern` builds: an escaped literal character, or
the `.*` wildcard substituted for the placeholder. -/
inductive GlobTok
  | lit (c : Char)
  | wild
deriving DecidableEq, Repr

/-- The final `.replace(placeholderRegex, '.*')` scan: left-to-right, non-overlapping
placeholder occurrences become wildcards, everything else stays a literal (the escaping
step makes every remaining character literal in the regex). -/
def tokenizeAux : Nat → List Char → List GlobTok
  | 0, _ => []
  | _ + 1, [] => []
  | fuel + 1, c :: cs =>
    if placeholder.isPrefixOf (c :: cs) then
      .wild :: tokenizeAux fuel ((c :: cs).drop placeholder.length)
    else .lit c :: tokenizeAux fuel cs

def tokenizePattern (p : List Char) : List GlobTok := tokenizeAux p.length p

/-- The line terminators a JS regex `.` without the `s` flag refuses: `\n`, `\r`,
U+2028 and U+2029. -/
def isLineTerm (c : Char) : Bool :=
  c == '\n' || c == '\r' || c == '\u2028' || c == '\u2029'

/-- Anchored matching of the built regex: a literal matches itself; `.*` matches a run
of characters none of which is a line terminator (JS `.` without the `s` flag). -/
def reMatchAux : Nat → List GlobTok → List Char → Bool
  | 0, _, _ => false
  | _ + 1, [], s => s.isEmpty
  | f + 1, .lit c :: ts, s =>
    match s with
    | [] => false
    | x :: xs => c == x && reMatchAux f ts xs
  | f + 1, .wild :: ts, s =>
    reMatchAux f ts s ||
      (match s with
       | [] => false
       | x :: xs => !(isLineTerm x) && reMatchAux f (.wild :: ts) xs)

def reMatch (ts : List GlobTok) (s : List Char) : Bool :=
  reMatchAux (ts.length + s.length + 1) ts s

/-- `matchesGlobPattern` (src/config.ts lines 128-152): exact match, the universal `"*"`
pattern, or the anchored regex built from the pattern. -/
def matchesGlobPattern (pattern hostname : String) : Bool :=
  pattern == hostname || pattern == "*" ||
    reMatch (tokenizePattern (replaceStar pattern.data)) hostname.data

/-- `(h.isActive ?? true)`. -/
def isActiveB (h : HostConfig) : Bool := h.isActive.getD true

/-- `getHostConfig` (src/config.ts lines 154-167): the first active exact match wins,
otherwise the first active glob match, otherwise none. -/
def getHostConfig (cfg : GlobalConfig) (hostname : String) : Option HostConfig :=
  match cfg.hosts.find? (fun h => h.host == hostname && isActiveB h) with
  | some exactMatch => some exactMatch
  | none => cfg.hosts.find? (fun h => matchesGlobPattern h.host hostname && isActiveB h)

/-! Spec-side glob semantics (spec §4.1): `*` matches any run of characters, every other
character matches itself, matching is anchored. -/

/-- Spec-side glob matching as an inductive relation. -/
inductive GlobSpec : List Char → List Char → Prop
  | nil : GlobSpec [] []
  | lit {c : Char} {p s : List Char} (hc : c ≠ '*') (h : GlobSpec p s) :
      GlobSpec (c :: p) (c :: s)
  | star {p s : List Char} (run : List Char) (h : GlobSpec p s) :
      GlobSpec ('*' :: p) (run ++ s)

/-- Spec-side glob matching, executable. -/
def specMatchAux : Nat → List Char → List Char → Bool
  | 0, _, _ => false
  | _ + 1, [], s => s.isEmpty
  | f + 1, c :: p, s =>
    if c = '*' then
      specMatchAux f p s ||
        (match s with
         | [] => false
         | _ :: xs => specMatchAux f (c :: p) xs)
    else
      match s with
      | [] => false
      | x :: xs => c == x && specMatchAux f p xs

def specGlobMatch (p s : List Char) : Bool := specMatchAux (p.length + s.length + 1) p s

/-- Spec-side host lookup: first active exact match, else first active host whose
pattern glob-matches in the spec's sense. -/
def specHostLookup (cfg : GlobalConfig) (hostname : String) : Option HostConfig :=
  match cfg.hosts.find? (fun h => h.host == hostname && isActiveB h) with
  | some exactMatch => some exactMatch
  | none => cfg.hosts.find? (fun h => specGlobMatch h.host.data hostname.data && isActiveB h)

end RenderX

namespace RenderX

/-! ## Request classification helpers (src/index.ts) -/

/-- JS `toLowerCase` restricted to ASCII (sufficient for user-agent and bot matching). -/
def lowerChars (s : String) : List Char := s.data.map Char.toLower

/-- `userAgent.toLowerCase().includes('renderx')`. -/
def uaIsRenderX (ua : String) : Bool := decide ("renderx".data <:+: lowerChars ua)

/-- `bots.some(bot => userAgent.toLowerCase().includes(bot.toLowerCase()))`. -/
def uaIsBot (bots : List String) (ua : String) : Bool :=
  bots.any fun b => decide (lowerChars b <:+: lowerChars ua)

/-- `req.headers.host?.split(':')[0]`. -/
def stripPort (h : String) : String := ⟨h.data.takeWhile (· ≠ ':')⟩

/-- Node `path.extname` on the basename after the last `/`: the suffix from the last
dot, empty when there is no dot, the dot is the leading character, or the basename is
all dots. -/
def extname (p : List Char) : List Char :=
  let base := (splitSlash p).getLastD []
  if base.all (· = '.') then []
  else
    let pre := base.reverse.takeWhile (· ≠ '.')
    if pre.length = base.length then []
    else if pre.length + 1 = base.length then []
    else '.' :: pre.reverse

/-- `isFilePath` (src/index.ts lines 363-366): the path has a non-empty extension. -/
def isFilePath (p : String) : Bool := !(extname p.data == []) && !(extname p.data == ['/'])

/-- `shouldRender` (src/index.ts lines 371-405). -/
def shouldRender (strategy : RenderingStrategy) (isBot isRenderXRequest isDirectFile : Bool)
    (isInternalRender : Bool := false) : Bool :=
  if isInternalRender then false
  else if isRenderXRequest then false
  else if isDirectFile then false
  else
    match strategy with
    | .csr => false
    | .ssr => true
    | .smartSsr => isBot

/-! ## Effective configuration (src/config.ts, `getEffectiveConfig`) -/

structure EffectiveConfig where
  port : Nat
  timeoutMs : Nat
  cacheTtl : Nat
  botOnly : Bool
  maxConcurrency : Nat
  bots : List String
  source : Option String
  renderingStrategy : RenderingStrategy
  rootSelector : Option String
  clearCacheOnStartup : Bool
deriving DecidableEq, Repr

def getEffectiveConfig (cfg : GlobalConfig) (hostname : Option String) : EffectiveConfig :=
  let host := match hostname with
    | some h => getHostConfig cfg h
    | none => none
  let strategy := (host.bind (·.strategy)).getD cfg.strategy
  { port := cfg.port
    timeoutMs := (host.bind (·.timeoutMs)).getD (cfg.timeoutMs.getD 10000)
    cacheTtl := (match cfg.cacheCleanupInterval with
      | none => 60
      | some n => if n = 0 then 60 else n) * 60
    botOnly := strategy == .smartSsr || strategy == .csr
    maxConcurrency := (host.bind (·.parallelRenders)).getD cfg.parallelRenders
    bots := (host.bind (·.bots)).getD cfg.bots
    source := host.map (·.source)
    renderingStrategy := strategy
    rootSelector := match host.bind (·.rootSelector) with
      | some r => some r
      | none => cfg.rootSelector
    clearCacheOnStartup := cfg.clearCacheOnStartup.getD true }

/-! ## URL and SSRF helpers (src/index.ts) -/

/-- Result of `new URL(...)`: the fields the router reads. `none` models a parse throw. -/
structure ParsedUrl where
  hostname : String
  protocol : String
  host : String
  pathname : String
  search : String
deriving DecidableEq, Repr

/-- JS `Number(segment)` for dotted-quad segments: digits parse, the empty string is 0,
anything else is NaN (modelled as `none`). -/
def jsNumber (s : List Char) : Option Nat :=
  if s = [] then some 0
  else if s.all (·.isDigit) then
    some (s.foldl (fun acc c => acc * 10 + (c.toNat - 48)) 0)
  else none

/-- Split a character list on an arbitrary separator (JS `split(sep)`). -/
def splitOnChar (sep : Char) : List Char → List (List Char)
  | [] => [[]]
  | c :: cs =>
    if c = sep then [] :: splitOnChar sep cs
    else
      match splitOnChar sep cs with
      | [] => [[c]]
      | s :: rest => (c :: s) :: rest

/-- `isSafeUrl` (src/index.ts lines 142-164): block loopback literals and the private
ranges 10/8, 172.16/12 and 192.168/16; `localhost` stays allowed. -/
def isSafeUrl (hostname : String) : Bool :=
  let h := lowerChars hostname
  let blocked : List (List Char) := ["127.0.0.1".data, "0.0.0.0".data, "::1".data,
    "[::1]".data]
  if blocked.contains h then false
  else
    let parts := (splitOnChar '.' h).map jsNumber
    if "192.168.".data.isPrefixOf h || "10.".data.isPrefixOf h ||
        (parts.length = 4 && parts.getD 0 none == some 172 &&
          (match parts.getD 1 none with
           | some p1 => decide (16 ≤ p1) && decide (p1 ≤ 31)
           | none => false)) then
      false
    else true

end RenderX

namespace RenderX

/-! ## Router model (src/index.ts, main routing middleware and GET /render) -/

/-- What a handler replies with. -/
inductive Body
  | html (s : String)
  | file (path : String)
  | jsonError (error : String)
  | redirectTo (url : String)
  | next
deriving DecidableEq, Repr

structure RouteResponse where
  status : Nat
  body : Body
  renderDispatched : Bool
deriving DecidableEq, Repr

/-- External outcomes a request can observe: headers, URL parse, file system, cache and
renderer. `fsExists`/`fsIsFile` abstract `fs.existsSync`/`statSync().isFile()`;
`cached`/`renderResult` abstract `cache.get(cacheKey, 'desktop')` and `render(...)` for
this request's key. -/
structure RouteEnv where
  origin : Option String
  hostHeader : Option String
  userAgent : String
  internalHeader : Bool
  path : String
  originalUrl : String
  protocol : String
  parseOrigin : Option ParsedUrl
  fsExists : String → Bool
  fsIsFile : String → Bool
  cached : Option String
  renderResult : Except String String

/-- `path.join(cwd, './hosts', source)` (both call sites build this). -/
def sourceDir (cwd source : String) : String := cwd ++ "/hosts/" ++ source

/-- `path.join(dir, 'index.html')`. -/
def indexIn (dir : String) : String := dir ++ "/index.html"

def validatePathS (cwd base req : String) : Option String :=
  (validatePath cwd.data base.data req.data).map fun l => ⟨l⟩

/-- `renderPage` (src/index.ts lines 416-462): serve from cache, else render; a thrown
render error or an empty result reports "not sent" so the caller falls back to the
static index. The second component records whether `render` was invoked. -/
def renderPageM (cached : Option String) (renderResult : Except String String) :
    Option (Nat × Body) × Bool :=
  match cached with
  | some html => (some (200, .html html), false)
  | none =>
    match renderResult with
    | .ok html => if html = "" then (none, true) else (some (200, .html html), true)
    | .error _ => (none, true)

/-- A render-dispatch site of the middleware: serve what `renderPage` sent, else fall
back to the given static index file. -/
def dispatchOrFallback (cached : Option String) (rr : Except String String)
    (fallback : String) : RouteResponse :=
  match renderPageM cached rr with
  | (some (st, b), disp) => { status := st, body := b, renderDispatched := disp }
  | (none, disp) => { status := 200, body := .file fallback, renderDispatched := disp }

/-- Serving a file found under a host's source directory: the file itself, or the
`index.html` of a directory. Returns the file to send, if any. -/
def serveValidated (env : RouteEnv) (srcDir : String) : Option String :=
  match validatePathS "/" srcDir env.path with
  | none => none
  | some p =>
    if env.fsExists p then
      if env.fsIsFile p then some p
      else if env.fsExists (indexIn p) then some (indexIn p)
      else none
    else none

/-- The internal-render branch (src/index.ts lines 476-562): resolve a target host from
Origin then Host, serve the validated file or the host's index, then fall back over all
active hosts, then over any active host's index; 404 otherwise. Never dispatches a
render. -/
def internalBranchCore (cfg : GlobalConfig) (cwd : String) (env : RouteEnv) : Nat × Body :=
  let isFileRequest := isFilePath env.path
  let fromOrigin : Option HostConfig :=
    match env.origin with
    | some _ =>
      match env.parseOrigin with
      | some u => getHostConfig cfg u.hostname
      | none => none
    | none => none
  let target : Option HostConfig :=
    match fromOrigin with
    | some t => some t
    | none =>
      match env.hostHeader with
      | some h => if stripPort h = "" then none else getHostConfig cfg (stripPort h)
      | none => none
  let primary : Option String :=
    match target with
    | some t =>
      if t.isActive = some false then none
      else
        match serveValidated env (sourceDir cwd t.source) with
        | some f => some f
        | none =>
          if !isFileRequest && env.fsExists (indexIn (sourceDir cwd t.source)) then
            some (indexIn (sourceDir cwd t.source))
          else none
    | none => none
  match primary with
  | some f => (200, .file f)
  | none =>
    let rest := cfg.hosts.filter fun h =>
      !(h.isActive == some false) &&
        !(match target with
          | some t => h.source == t.source
          | none => false)
    match rest.findSome? (fun h => serveValidated env (sourceDir cwd h.source)) with
    | some f => (200, .file f)
    | none =>
      if !isFileRequest then
        match (cfg.hosts.filter fun h => !(h.isActive == some false)).findSome?
            (fun h => if env.fsExists (indexIn (sourceDir cwd h.source)) then
              some (indexIn (sourceDir cwd h.source)) else none) with
        | some f => (200, .file f)
        | none => (404, .jsonError "Not found")
      else (404, .jsonError "Not found")

/-- The internal-render branch never dispatches a render; it only serves static
content. -/
def internalBranch (cfg : GlobalConfig) (cwd : String) (env : RouteEnv) : RouteResponse :=
  { status := (internalBranchCore cfg cwd env).1,
    body := (internalBranchCore cfg cwd env).2,
    renderDispatched := false }

/-- `isValidOrigin` (src/index.ts lines 123-134): the Origin parses and its hostname
matches a configured host. -/
def isValidOriginB (cfg : GlobalConfig) (parseOrigin : Option ParsedUrl) : Bool :=
  match parseOrigin with
  | some u => !(getHostConfig cfg u.hostname == none)
  | none => false

/-- The file probe for extension-ful requests without an Origin header
(src/index.ts lines 564-578). -/
def probeFiles (cfg : GlobalConfig) (cwd : String) (env : RouteEnv) : Option String :=
  if isFilePath env.path && env.origin == none then
    (cfg.hosts.filter fun h => !(h.isActive == some false)).findSome? fun h =>
      match validatePathS "/" (sourceDir cwd h.source) env.path with
      | some p => if env.fsExists p && env.fsIsFile p then some p else none
      | none => none
  else none

/-- Hostname determination (src/index.ts lines 580-603): parse and validate the Origin
when present, else fall back to the Host header; failures carry the error response. -/
def resolveHostname (cfg : GlobalConfig) (env : RouteEnv) : Except (Nat × Body) String :=
  match env.origin with
  | some _ =>
    match env.parseOrigin with
    | none => .error (400, .jsonError "Invalid Origin header format")
    | some u =>
      if !(isValidOriginB cfg env.parseOrigin) then
        .error (403, .jsonError "Invalid origin")
      else .ok u.hostname
  | none =>
    let hn := stripPort (env.hostHeader.getD "")
    if hn = "" then .error (400, .jsonError "Unable to determine hostname")
    else .ok hn

/-- Serving for a matched active host (src/index.ts lines 624-699): root path and SPA
routes consult `shouldRender` and dispatch a render (`env.cached`/`env.renderResult`
stand for the cache and renderer at this request's cache key), falling back to the
static index; files and directories are served directly. -/
def hostRoute (cfg : GlobalConfig) (cwd : String) (env : RouteEnv)
    (originHostname : String) (hostConfig : HostConfig) : RouteResponse :=
  let effective := getEffectiveConfig cfg (some originHostname)
  let isBot := uaIsBot effective.bots env.userAgent
  let isRenderXRequest := uaIsRenderX env.userAgent
  let srcDir := sourceDir cwd hostConfig.source
  if env.path = "/" then
    if env.fsExists (indexIn srcDir) then
      if shouldRender effective.renderingStrategy isBot isRenderXRequest false
          env.internalHeader then
        dispatchOrFallback env.cached env.renderResult (indexIn srcDir)
      else { status := 200, body := .file (indexIn srcDir), renderDispatched := false }
    else { status := 404, body := .jsonError "Not found", renderDispatched := false }
  else
    match serveValidated env srcDir with
    | some f => { status := 200, body := .file f, renderDispatched := false }
    | none =>
      if env.fsExists (indexIn srcDir) then
        if shouldRender effective.renderingStrategy isBot isRenderXRequest
            (isFilePath env.path) env.internalHeader then
          dispatchOrFallback env.cached env.renderResult (indexIn srcDir)
        else { status := 200, body := .file (indexIn srcDir), renderDispatched := false }
      else { status := 404, body := .jsonError "Not found", renderDispatched := false }

/-- The main routing middleware (src/index.ts lines 465-700). -/
def mainRoute (cfg : GlobalConfig) (cwd : String) (env : RouteEnv) : RouteResponse :=
  if env.internalHeader then internalBranch cfg cwd env
  else
    match probeFiles cfg cwd env with
    | some f => { status := 200, body := .file f, renderDispatched := false }
    | none =>
      match resolveHostname cfg env with
      | .error (st, b) => { status := st, body := b, renderDispatched := false }
      | .ok originHostname =>
        match getHostConfig cfg originHostname with
        | none =>
          if env.origin == none then
            { status := 403, body := .jsonError "Invalid host", renderDispatched := false }
          else { status := 404, body := .next, renderDispatched := false }
        | some hostConfig =>
          if hostConfig.isActive == some false then
            { status := 503, body := .jsonError "Host is not active",
              renderDispatched := false }
          else hostRoute cfg cwd env originHostname hostConfig

/-- Environment of one GET /render request. -/
structure RenderEndpointEnv where
  urlParam : Option String
  parsedUrl : Option ParsedUrl
  userAgent : String
  cached : Option String
  renderResult : Except String String
deriving Repr

/-- GET /render (src/index.ts lines 703-783): missing or unparsable url → 400; unsafe
url → 400; botOnly strategy and a non-bot caller → redirect; cache hit → 200; rendered
HTML → 200 (empty → 500); a thrown error is caught and, the url parameter being present,
answered with a 302 redirect to the url carrying X-Render-Error. -/
def renderEndpoint (cfg : GlobalConfig) (env : RenderEndpointEnv) : RouteResponse :=
  match env.urlParam with
  | none => { status := 400, body := .jsonError "Missing required parameter: url",
              renderDispatched := false }
  | some url =>
    match env.parsedUrl with
    | none => { status := 400, body := .jsonError "Invalid URL format",
                renderDispatched := false }
    | some u =>
      if !(isSafeUrl u.hostname) then
        { status := 400, body := .jsonError "Invalid URL", renderDispatched := false }
      else
        let effective := getEffectiveConfig cfg (some u.hostname)
        let isBot := uaIsBot effective.bots env.userAgent
        if effective.botOnly && !isBot then
          { status := 302, body := .redirectTo url, renderDispatched := false }
        else
          match env.cached with
          | some html => { status := 200, body := .html html, renderDispatched := false }
          | none =>
            match env.renderResult with
            | .ok html =>
              if html = "" then
                { status := 500, body := .jsonError "Failed to render page",
                  renderDispatched := true }
              else { status := 200, body := .html html, renderDispatched := true }
            | .error _ =>
              { status := 302, body := .redirectTo url, renderDispatched := true }

end RenderX

namespace RenderX

theorem internalBranch_no_render (cfg : GlobalConfig) (cwd : String) (env : RouteEnv) :
    (internalBranch cfg cwd env).renderDispatched = false := rfl

theorem shouldRender_renderx (s : RenderingStrategy) (b f i : Bool) :
    shouldRender s b true f i = false := by
  cases i <;> cases f <;> rfl

theorem shouldRender_file (s : RenderingStrategy) (b r i : Bool) :
    shouldRender s b r true i = false := by
  cases i <;> cases r <;> rfl

/-- C4: `shouldRender` returns false for internal renders, RenderX user-agents and file
paths; otherwise it renders always under `ssr`, never under `csr`, and exactly for bots
under `smart-ssr`. The routing middleware never dispatches a render for a request with
the internal header or a RenderX user-agent (no-loop invariant). -/
theorem C4_serving_decision_no_loop :
    (∀ s b f i, shouldRender s b true f i = false) ∧
    (∀ s b r f, shouldRender s b r f true = false) ∧
    (∀ s b r i, shouldRender s b r true i = false) ∧
    (∀ b, shouldRender .csr b false false false = false) ∧
    (∀ b, shouldRender .ssr b false false false = true) ∧
    (∀ b, shouldRender .smartSsr b false false false = b) ∧
    (∀ cfg cwd env, env.internalHeader = true ∨ uaIsRenderX env.userAgent = true →
      (mainRoute cfg cwd env).renderDispatched = false) := by
  refine ⟨shouldRender_renderx, ?_, ?_, ?_, ?_, ?_, ?_⟩
  · intro s b r f
    rfl
  · intro s b r i
    exact shouldRender_file s b r i
  · intro b; rfl
  · intro b; rfl
  · intro b; rfl
  · intro cfg cwd env h
    have hhr : uaIsRenderX env.userAgent = true →
        ∀ hn hc, (hostRoute cfg cwd env hn hc).renderDispatched = false := by
      intro hrx hn hc
      rw [hostRoute]
      simp only [hrx, shouldRender_renderx]
      repeat' split
      all_goals first
        | rfl
        | exact absurd ‹false = true› Bool.false_ne_true
    rw [mainRoute]
    rcases h with h | h
    · simp only [h, if_pos]
      exact internalBranch_no_render cfg cwd env
    · by_cases hint : env.internalHeader = true
      · simp only [hint, if_pos]
        exact internalBranch_no_render cfg cwd env
      · simp only [Bool.not_eq_true] at hint
        simp only [hint, Bool.false_eq_true, if_false]
        repeat' split
        all_goals first
          | rfl
          | exact hhr h _ _

end RenderX

namespace RenderX

/-- Concrete global configuration used by router witnesses. -/
def cfgW : GlobalConfig :=
  { port := 8080, parallelRenders := 10, bots := ["Googlebot"], strategy := .smartSsr,
    hosts := [{ source := "app", host := "app.example" }] }

/-- Concrete request of the render engine itself (RenderX user-agent). -/
def envRenderX : RouteEnv :=
  { origin := some "https://app.example", hostHeader := some "app.example:443",
    userAgent := "RenderX/1.0", internalHeader := false, path := "/", originalUrl := "/",
    protocol := "https",
    parseOrigin := some { hostname := "app.example", protocol := "https:",
                          host := "app.example", pathname := "/", search := "" },
    fsExists := fun _ => true, fsIsFile := fun _ => false,
    cached := none, renderResult := Except.ok "<html>x</html>" }

/-- Witness for C4: the router does not dispatch a render for a RenderX user-agent. -/
theorem C4_witness :
    (mainRoute cfgW "/srv" envRenderX).renderDispatched = false :=
  C4_serving_decision_no_loop.2.2.2.2.2.2 cfgW "/srv" envRenderX (Or.inr (by decide))

theorem renderPageM_fail {rr : Except String String}
    (h : (∃ e, rr = .error e) ∨ rr = .ok "") (c : Option String) :
    renderPageM c rr =
      (match c with
       | some html => (some (200, Body.html html), false)
       | none => (none, true)) := by
  cases c with
  | some html => rfl
  | none =>
    rcases h with ⟨e, rfl⟩ | rfl
    · rfl
    · rfl

theorem dispatchOrFallback_fail {rr : Except String String}
    (h : (∃ e, rr = .error e) ∨ rr = .ok "") (c : Option String) (fb : String)
    (hdisp : (dispatchOrFallback c rr fb).renderDispatched = true) :
    dispatchOrFallback c rr fb =
      { status := 200, body := .file fb, renderDispatched := true } := by
  rw [dispatchOrFallback, renderPageM_fail h] at hdisp ⊢
  cases c with
  | some html => simp at hdisp
  | none => rfl

/-- Concrete /render environment whose render throws. -/
def eenvFail : RenderEndpointEnv :=
  { urlParam := some "https://app.example/x",
    parsedUrl := some { hostname := "app.example", protocol := "https:",
                        host := "app.example", pathname := "/x", search := "" },
    userAgent := "Googlebot/2.1", cached := none,
    renderResult := Except.error "browser launch failed" }

/-- C3 counterexample: a failing render on GET /render with the url parameter present is
answered with a 302 redirect to the url (X-Render-Error set), not with status 500. -/
theorem C3_render_endpoint_counterexample :
    renderEndpoint cfgW eenvFail =
      { status := 302, body := .redirectTo "https://app.example/x",
        renderDispatched := true } ∧
    (renderEndpoint cfgW eenvFail).status ≠ 500 := by
  constructor
  · rfl
  · decide

theorem hostRoute_dispatch_shape (cfg : GlobalConfig) (cwd : String) (env : RouteEnv)
    (hn : String) (hc : HostConfig) :
    (hostRoute cfg cwd env hn hc).renderDispatched = false ∨
      ∃ fb, hostRoute cfg cwd env hn hc =
        dispatchOrFallback env.cached env.renderResult fb := by
  rw [hostRoute]
  repeat' split
  all_goals
    first
      | exact Or.inr ⟨_, rfl⟩
      | exact Or.inl rfl

theorem mainRoute_dispatch_shape (cfg : GlobalConfig) (cwd : String) (env : RouteEnv) :
    (mainRoute cfg cwd env).renderDispatched = false ∨
      ∃ fb, mainRoute cfg cwd env = dispatchOrFallback env.cached env.renderResult fb := by
  rw [mainRoute]
  repeat' split
  all_goals
    first
      | exact Or.inl (internalBranch_no_render cfg cwd env)
      | exact hostRoute_dispatch_shape cfg cwd env _ _

set_option maxHeartbeats 2000000 in
/-- C3 (amended): when rendering fails, GET /render redirects (302) to the url when the
failure is a thrown error, and returns 500 only when the render resolves with empty
HTML; on the main routing path any render failure is swallowed and the response is the
host's static index.html with status 200 — never a 5xx. -/
theorem C3_render_failure_surfaces_as_redirect_or_fallback
    (cfg : GlobalConfig) (cwd : String) (env : RouteEnv) (eenv : RenderEndpointEnv)
    (url : String) :
    ((∃ e, eenv.renderResult = .error e) →
      eenv.urlParam = some url → eenv.cached = none →
      ∀ u, eenv.parsedUrl = some u → isSafeUrl u.hostname = true →
        ((getEffectiveConfig cfg (some u.hostname)).botOnly &&
          !(uaIsBot (getEffectiveConfig cfg (some u.hostname)).bots eenv.userAgent)) = false →
        renderEndpoint cfg eenv =
          { status := 302, body := .redirectTo url, renderDispatched := true }) ∧
    (eenv.renderResult = .ok "" →
      eenv.urlParam = some url → eenv.cached = none →
      ∀ u, eenv.parsedUrl = some u → isSafeUrl u.hostname = true →
        ((getEffectiveConfig cfg (some u.hostname)).botOnly &&
          !(uaIsBot (getEffectiveConfig cfg (some u.hostname)).bots eenv.userAgent)) = false →
        renderEndpoint cfg eenv =
          { status := 500, body := .jsonError "Failed to render page",
            renderDispatched := true }) ∧
    (((∃ e, env.renderResult = .error e) ∨ env.renderResult = .ok "") →
      (mainRoute cfg cwd env).renderDispatched = true →
      ∃ f, mainRoute cfg cwd env =
        { status := 200, body := .file f, renderDispatched := true }) := by
  refine ⟨?_, ?_, ?_⟩
  · rintro ⟨e, he⟩ hu hc u hp hsafe hbot
    rw [renderEndpoint]
    simp only [hu, hp, hsafe, Bool.not_true, hbot, hc, he]
    rfl
  · intro he hu hc u hp hsafe hbot
    rw [renderEndpoint]
    simp only [hu, hp, hsafe, Bool.not_true, hbot, hc, he]
    rfl
  · intro hfail hdisp
    rcases mainRoute_dispatch_shape cfg cwd env with h | ⟨fb, h⟩
    · rw [h] at hdisp
      exact absurd hdisp Bool.false_ne_true
    · rw [h] at hdisp ⊢
      exact ⟨fb, dispatchOrFallback_fail hfail _ _ hdisp⟩

end RenderX

namespace RenderX

/-- Concrete main-path request whose render throws. -/
def envFailMain : RouteEnv :=
  { origin := some "https://app.example", hostHeader := some "app.example",
    userAgent := "Googlebot/2.1", internalHeader := false, path := "/", originalUrl := "/",
    protocol := "https",
    parseOrigin := some { hostname := "app.example", protocol := "https:",
                          host := "app.example", pathname := "/", search := "" },
    fsExists := fun _ => true, fsIsFile := fun _ => false,
    cached := none, renderResult := Except.error "navigation failed" }

/-- Witness for C3 at concrete requests: the /render redirect and the main-path static
fallback. -/
theorem C3_witness :
    renderEndpoint cfgW eenvFail =
      { status := 302, body := .redirectTo "https://app.example/x",
        renderDispatched := true } ∧
    (∃ f, mainRoute cfgW "/srv" envFailMain =
      { status := 200, body := .file f, renderDispatched := true }) := by
  constructor
  · exact (C3_render_failure_surfaces_as_redirect_or_fallback cfgW "/srv" envFailMain
      eenvFail "https://app.example/x").1 ⟨"browser launch failed", rfl⟩ rfl rfl
      _ rfl (by decide) (by decide)
  · exact (C3_render_failure_surfaces_as_redirect_or_fallback cfgW "/srv" envFailMain
      eenvFail "https://app.example/x").2.2 (Or.inl ⟨"navigation failed", rfl⟩) (by decide)

end RenderX

namespace RenderX

/-! ### Glob machinery lemmas (C6) -/

/-- Spec-side token view of a pattern: `*` is the wildcard, all else literal. -/
def specTokens (p : List Char) : List GlobTok :=
  p.map fun c => if c = '*' then GlobTok.wild else GlobTok.lit c

theorem replaceStar_star (r : List Char) :
    replaceStar ('*' :: r) = placeholder ++ replaceStar r := by
  rw [replaceStar, if_pos rfl]

theorem replaceStar_lit {c : Char} (hc : c ≠ '*') (r : List Char) :
    replaceStar (c :: r) = c :: replaceStar r := by
  rw [replaceStar, if_neg hc]

theorem replaceStar_prefix_decompose :
    ∀ {p s : List Char}, s <+: replaceStar p →
      ∃ a b, s = a ++ b ∧ a <+: p ∧ (b = [] ∨ ∃ X, b <+: placeholder ++ X) := by
  intro p
  induction p with
  | nil =>
    intro s hs
    rw [show replaceStar [] = [] from rfl] at hs
    exact ⟨[], [], by simpa using (List.prefix_nil.mp hs), List.nil_prefix, Or.inl rfl⟩
  | cons c r ih =>
    intro s hs
    by_cases hc : c = '*'
    · subst hc
      rw [replaceStar_star] at hs
      exact ⟨[], s, rfl, List.nil_prefix, Or.inr ⟨replaceStar r, hs⟩⟩
    · rw [replaceStar_lit hc] at hs
      cases s with
      | nil => exact ⟨[], [], rfl, List.nil_prefix, Or.inl rfl⟩
      | cons x s' =>
        rw [List.cons_prefix_cons] at hs
        obtain ⟨rfl, hs'⟩ := hs
        obtain ⟨a, b, hab, har, hb⟩ := ih hs'
        exact ⟨x :: a, b, by simp [hab], List.cons_prefix_cons.mpr ⟨rfl, har⟩, hb⟩

theorem prefix_take_eq {b l : List Char} (h : b <+: l) {n : Nat} (hn : n ≤ b.length) :
    l.take n = b.take n := by
  obtain ⟨t, rfl⟩ := h
  rw [List.take_append_eq_append_take, Nat.sub_eq_zero_of_le hn, List.take_zero,
    List.append_nil]

theorem not_placeholder_prefix {c : Char} {r : List Char}
    (h : ¬ ("WILDCARD_PLACEHOLDER".data <:+: (c :: r))) :
    ¬ (placeholder <+: c :: replaceStar r) := by
  intro hp
  rw [show placeholder = '_' :: "_WILDCARD_PLACEHOLDER__".data from rfl,
    List.cons_prefix_cons] at hp
  obtain ⟨hc1, hQ⟩ := hp
  obtain ⟨a, b, hab, har, hb⟩ := replaceStar_prefix_decompose hQ
  have hlen : a.length ≤ 23 := by
    have := congrArg List.length hab
    simp at this
    omega
  have ha : a = "_WILDCARD_PLACEHOLDER__".data.take a.length := by
    rw [hab, List.take_append_eq_append_take, Nat.sub_self, List.take_zero,
      List.append_nil, List.take_length]
  by_cases hk : a.length ≥ 21
  · -- a already contains the seed
    apply h
    have hseed : "WILDCARD_PLACEHOLDER".data <:+: a := by
      rw [ha]
      have h21 : "_WILDCARD_PLACEHOLDER__".data.take 21 <+:
          "_WILDCARD_PLACEHOLDER__".data.take a.length :=
        List.take_prefix_take_left _ hk
      refine List.IsInfix.trans ?_ h21.isInfix
      decide
    have : "WILDCARD_PLACEHOLDER".data <:+: r := hseed.trans har.isInfix
    exact List.infix_cons this
  · -- the rest of the placeholder would have to start with "__"
    push_neg at hk
    rcases hb with rfl | ⟨X, hbP⟩
    · rw [List.append_nil] at hab
      have := congrArg List.length hab
      simp at this
      omega
    · have hbval : b = "_WILDCARD_PLACEHOLDER__".data.drop a.length := by
        rw [hab, List.drop_append_eq_append_drop, Nat.sub_self, List.drop_zero,
          List.drop_length, List.nil_append]
      have hblen : 2 ≤ b.length := by
        have := congrArg List.length hab
        simp at this
        omega
      have h2 : b.take 2 = ['_', '_'] := by
        have := prefix_take_eq hbP (n := 2) hblen
        rw [← this]
        rfl
      rw [hbval] at h2
      have : ∀ k, k < 21 → ("_WILDCARD_PLACEHOLDER__".data.drop k).take 2 ≠ ['_', '_'] := by
        decide
      exact this a.length (by omega) h2

end RenderX

namespace RenderX

theorem tokenizeAux_replaceStar :
    ∀ (p : List Char) (fuel : Nat), (replaceStar p).length ≤ fuel →
      ¬ ("WILDCARD_PLACEHOLDER".data <:+: p) →
      tokenizeAux fuel (replaceStar p) = specTokens p := by
  intro p
  induction p with
  | nil =>
    intro fuel _ _
    cases fuel <;> rfl
  | cons c r ih =>
    intro fuel hfuel hseed
    have hseedr : ¬ ("WILDCARD_PLACEHOLDER".data <:+: r) := by
      intro hx
      exact hseed (List.infix_cons hx)
    by_cases hc : c = '*'
    · subst hc
      rw [replaceStar_star] at hfuel ⊢
      have h1 : 1 ≤ fuel := by
        simp [placeholder] at hfuel
        omega
      obtain ⟨f, rfl⟩ := Nat.exists_eq_add_of_le h1
      rw [Nat.add_comm 1 f]
      have hpre : placeholder.isPrefixOf
          ('_' :: ("_WILDCARD_PLACEHOLDER__".data ++ replaceStar r)) = true := by
        rw [List.isPrefixOf_iff_prefix,
          show '_' :: ("_WILDCARD_PLACEHOLDER__".data ++ replaceStar r)
            = placeholder ++ replaceStar r from rfl]
        exact List.prefix_append placeholder (replaceStar r)
      have hdrop : ('_' :: ("_WILDCARD_PLACEHOLDER__".data ++ replaceStar r)).drop
          placeholder.length = replaceStar r := by
        rw [show '_' :: ("_WILDCARD_PLACEHOLDER__".data ++ replaceStar r)
            = placeholder ++ replaceStar r from rfl]
        exact List.drop_left _ _
      rw [show placeholder ++ replaceStar r =
        '_' :: ("_WILDCARD_PLACEHOLDER__".data ++ replaceStar r) from rfl]
      rw [tokenizeAux, if_pos hpre, hdrop]
      rw [ih f (by simp [placeholder] at hfuel ⊢; omega) hseedr]
      rfl
    · rw [replaceStar_lit hc] at hfuel ⊢
      have h1 : 1 ≤ fuel := by
        simp at hfuel
        omega
      obtain ⟨f, rfl⟩ := Nat.exists_eq_add_of_le h1
      rw [Nat.add_comm 1 f]
      have hnpre : ¬ (placeholder.isPrefixOf (c :: replaceStar r) = true) := by
        rw [List.isPrefixOf_iff_prefix]
        exact not_placeholder_prefix hseed
      rw [tokenizeAux, if_neg hnpre]
      rw [ih f (by simp at hfuel ⊢; omega) hseedr]
      rw [show specTokens (c :: r) = GlobTok.lit c :: specTokens r by
        simp [specTokens, hc]]

theorem specTokens_cons_star (p : List Char) :
    specTokens ('*' :: p) = GlobTok.wild :: specTokens p := by
  simp [specTokens]

theorem specTokens_cons_lit {c : Char} (hc : c ≠ '*') (p : List Char) :
    specTokens (c :: p) = GlobTok.lit c :: specTokens p := by
  simp [specTokens, hc]

theorem reMatch_spec_aux :
    ∀ (fuel : Nat) (p s : List Char), (∀ c ∈ s, isLineTerm c = false) →
      reMatchAux fuel (specTokens p) s = specMatchAux fuel p s := by
  intro fuel
  induction fuel with
  | zero => intro p s _; rfl
  | succ f ih =>
    intro p s hnl
    cases p with
    | nil => rfl
    | cons c p =>
      by_cases hc : c = '*'
      · subst hc
        rw [specTokens_cons_star]
        cases s with
        | nil =>
          rw [reMatchAux, specMatchAux, if_pos rfl, ih p [] (by simp)]
        | cons x xs =>
          have hx : isLineTerm x = false := hnl x (List.mem_cons_self x xs)
          have hxs : ∀ e ∈ xs, isLineTerm e = false :=
            fun e he => hnl e (List.mem_cons_of_mem x he)
          have h2 := ih ('*' :: p) xs hxs
          rw [specTokens_cons_star] at h2
          rw [reMatchAux, specMatchAux, if_pos rfl]
          show (reMatchAux f (specTokens p) (x :: xs) ||
              (!(isLineTerm x) && reMatchAux f (GlobTok.wild :: specTokens p) xs))
            = (specMatchAux f p (x :: xs) || specMatchAux f ('*' :: p) xs)
          rw [ih p (x :: xs) hnl, h2, hx]
          simp
      · rw [specTokens_cons_lit hc]
        cases s with
        | nil =>
          rw [reMatchAux, specMatchAux, if_neg hc]
        | cons x xs =>
          have hxs : ∀ e ∈ xs, isLineTerm e = false :=
            fun e he => hnl e (List.mem_cons_of_mem x he)
          rw [reMatchAux, specMatchAux, if_neg hc]
          show (c == x && reMatchAux f (specTokens p) xs)
            = (c == x && specMatchAux f p xs)
          rw [ih p xs hxs]

theorem specMatchAux_sound :
    ∀ (fuel : Nat) (p s : List Char), specMatchAux fuel p s = true → GlobSpec p s := by
  intro fuel
  induction fuel with
  | zero => intro p s h; simp [specMatchAux] at h
  | succ f ih =>
    intro p s h
    cases p with
    | nil =>
      have hs : s = [] := by
        rw [specMatchAux] at h
        cases s with
        | nil => rfl
        | cons a l => simp at h
      subst hs
      exact GlobSpec.nil
    | cons c p =>
      by_cases hc : c = '*'
      · subst hc
        cases s with
        | nil =>
          rw [specMatchAux, if_pos rfl, Bool.or_eq_true] at h
          cases h with
          | inl h1 => exact GlobSpec.star [] (ih p [] h1)
          | inr h2 => simp at h2
        | cons x xs =>
          rw [specMatchAux, if_pos rfl, Bool.or_eq_true] at h
          cases h with
          | inl h1 => exact GlobSpec.star [] (ih p (x :: xs) h1)
          | inr h2 =>
            have h3 := ih ('*' :: p) xs h2
            cases h3 with
            | lit hc' _ => exact absurd rfl hc'
            | star run h4 => exact GlobSpec.star (x :: run) h4
      · cases s with
        | nil =>
          rw [specMatchAux, if_neg hc] at h
          exact absurd h (by simp)
        | cons x xs =>
          rw [specMatchAux, if_neg hc, Bool.and_eq_true] at h
          have hcx : c = x := by simpa using h.1
          subst hcx
          exact GlobSpec.lit hc (ih p xs h.2)

theorem specMatchAux_complete :
    ∀ {p s : List Char}, GlobSpec p s →
      ∀ fuel, p.length + s.length + 1 ≤ fuel → specMatchAux fuel p s = true := by
  intro p s h
  induction h with
  | nil =>
    intro fuel hf
    cases fuel with
    | zero => omega
    | succ f => rfl
  | lit hc h ihs =>
    rename_i c p s
    intro fuel hf
    cases fuel with
    | zero => simp only [List.length_cons] at hf; omega
    | succ f =>
      rw [specMatchAux, if_neg hc]
      have h1 := ihs f (by simp only [List.length_cons] at hf; omega)
      simp [h1]
  | star run h ihs =>
    rename_i p s
    induction run with
    | nil =>
      simp only [List.nil_append]
      intro fuel hf
      cases fuel with
      | zero => simp only [List.length_cons] at hf; omega
      | succ f =>
        have h1 := ihs f (by simp only [List.length_cons] at hf; omega)
        cases s with
        | nil =>
          rw [specMatchAux, if_pos rfl]
          simp [h1]
        | cons y ys =>
          rw [specMatchAux, if_pos rfl]
          simp [h1]
    | cons x run ihr =>
      intro fuel hf
      cases fuel with
      | zero =>
        simp only [List.length_cons, List.length_append] at hf
        omega
      | succ f =>
        rw [List.cons_append, specMatchAux, if_pos rfl]
        have h2 := ihr f (by
          simp only [List.length_cons, List.length_append] at hf ⊢
          omega)
        simp [h2]

theorem globSpec_refl : ∀ p : List Char, GlobSpec p p := by
  intro p
  induction p with
  | nil => exact GlobSpec.nil
  | cons c p ih =>
    by_cases hc : c = '*'
    · subst hc
      exact GlobSpec.star ['*'] ih
    · exact GlobSpec.lit hc ih

theorem globSpec_star_all (s : List Char) : GlobSpec ['*'] s := by
  have h := GlobSpec.star (p := []) (s := []) s GlobSpec.nil
  simpa using h

theorem matchesGlobPattern_spec (p s : String)
    (hph : ¬ ("WILDCARD_PLACEHOLDER".data <:+: p.data))
    (hnl : ∀ c ∈ s.data, isLineTerm c = false) :
    matchesGlobPattern p s = specGlobMatch p.data s.data := by
  have htok : tokenizePattern (replaceStar p.data) = specTokens p.data := by
    rw [tokenizePattern]
    exact tokenizeAux_replaceStar p.data (replaceStar p.data).length (le_refl _) hph
  have hlen : (specTokens p.data).length = p.data.length := by simp [specTokens]
  have hre : reMatch (specTokens p.data) s.data = specGlobMatch p.data s.data := by
    rw [reMatch, hlen, specGlobMatch]
    exact reMatch_spec_aux _ p.data s.data hnl
  rw [matchesGlobPattern, htok, hre]
  by_cases hm : specGlobMatch p.data s.data = true
  · simp [hm]
  · have hps : (p == s) = false := by
      rw [beq_eq_false_iff_ne]
      intro he
      apply hm
      subst he
      exact specMatchAux_complete (globSpec_refl p.data) _ (le_refl _)
    have hst : (p == "*") = false := by
      rw [beq_eq_false_iff_ne]
      intro he
      apply hm
      subst he
      exact specMatchAux_complete (globSpec_star_all s.data) _ (le_refl _)
    simp [hps, hst]

theorem find?_congr {α : Type} (f g : α → Bool) :
    ∀ l : List α, (∀ x ∈ l, f x = g x) → l.find? f = l.find? g := by
  intro l
  induction l with
  | nil => intro _; rfl
  | cons a l ih =>
    intro h
    have ha := h a (List.mem_cons_self a l)
    have ht := ih fun x hx => h x (List.mem_cons_of_mem a hx)
    cases hg : g a with
    | true =>
      rw [List.find?_cons_of_pos _ (by rw [ha, hg]), List.find?_cons_of_pos _ hg]
    | false =>
      rw [List.find?_cons_of_neg _ (by rw [ha, hg]; simp),
        List.find?_cons_of_neg _ (by rw [hg]; simp), ht]

/-- A host whose pattern contains a `*` that, per the spec, matches any run of
characters. -/
def host6 : HostConfig := { source := "https://origin.example", host := "a*b" }

/-- A configuration with `host6` as its only (active) host. -/
def cfg6 : GlobalConfig :=
  { port := 8080, parallelRenders := 10, bots := ["Googlebot"], strategy := .smartSsr,
    hosts := [host6] }

/-- **C6 counterexample**: the spec says `*` matches any run of characters, so the
pattern `a*b` glob-matches the hostname `a\nb` (run `"\n"`) and the spec-side lookup
finds the active host `host6`; but `matchesGlobPattern` builds a regex whose `.`
(no `s` flag) does not match a newline, so `getHostConfig` finds no host. -/
theorem C6_newline_glob_counterexample :
    GlobSpec "a*b".data "a\nb".data ∧
      specHostLookup cfg6 "a\nb" = some host6 ∧
      getHostConfig cfg6 "a\nb" = none := by
  refine ⟨?_, ?_, ?_⟩
  · exact GlobSpec.lit (by decide)
      (GlobSpec.star ['\n'] (GlobSpec.lit (by decide) GlobSpec.nil))
  · rfl
  · rfl

/-- **C6** (amended): for a hostname containing no line terminator (`\n`, `\r`,
U+2028, U+2029), and host patterns none of which contains the text
`WILDCARD_PLACEHOLDER`, `getHostConfig` returns the first
active host whose pattern equals the hostname exactly, otherwise the first active host
whose pattern glob-matches (anchored, `*` matching any run of characters, all other
characters literal), otherwise none — i.e. it agrees with the spec-side lookup
`specHostLookup`, whose executable glob matcher `specGlobMatch` is sound and complete
for the declarative glob semantics `GlobSpec`. -/
theorem C6_host_lookup_first_active_glob (cfg : GlobalConfig) (hostname : String)
    (hph : ∀ h ∈ cfg.hosts, ¬ ("WILDCARD_PLACEHOLDER".data <:+: h.host.data))
    (hnl : ∀ c ∈ hostname.data, isLineTerm c = false) :
    getHostConfig cfg hostname = specHostLookup cfg hostname ∧
      ∀ p s : List Char, (specGlobMatch p s = true ↔ GlobSpec p s) := by
  constructor
  · rw [getHostConfig, specHostLookup]
    have hfind :
        cfg.hosts.find? (fun h => matchesGlobPattern h.host hostname && isActiveB h)
          = cfg.hosts.find? (fun h =>
              specGlobMatch h.host.data hostname.data && isActiveB h) := by
      apply find?_congr
      intro h hmem
      rw [matchesGlobPattern_spec h.host hostname (hph h hmem) hnl]
    rw [hfind]
  · intro p s
    constructor
    · exact specMatchAux_sound _ p s
    · intro hg
      exact specMatchAux_complete hg _ (le_refl _)

/-- **C6 witness**: the amended lookup equivalence at a concrete configuration. -/
theorem C6_witness :
    getHostConfig cfg6 "anything-b" = specHostLookup cfg6 "anything-b" :=
  (C6_host_lookup_first_active_glob cfg6 "anything-b" (by decide) (by decide)).1

/-! ## HTML optimizer (src/index.ts, `optimizeHtmlForSEO`)

The function parses HTML with cheerio, runs a sequence of DOM passes, serializes,
and applies three regex-based minifications. `HNode` and the parser/serializer below
model cheerio's DOM (cheerio is an external library; the model covers well-formed
markup such as explicit `<html><head>...</head><body>...</body></html>` documents,
which is what the passes and the claim are exercised on). -/

/-- A DOM node as cheerio exposes it: an element with a lower-cased tag name, an
attribute list and children; a text node; or a comment node. -/
inductive HNode
  | el (tag : String) (attrs : List (String × String)) (children : List HNode)
  | text (s : String)
  | comment (s : String)

/-- JS whitespace (the characters `\s` matches and `trim` strips, in the ASCII range). -/
def isJsWs (c : Char) : Bool :=
  c == ' ' || c == '\t' || c == '\n' || c == '\r' || c == '\x0b' || c == '\x0c'

/-- JS `String.prototype.trim`. -/
def jsTrim (s : String) : String :=
  ⟨((s.data.dropWhile isJsWs).reverse.dropWhile isJsWs).reverse⟩

/-- One step of JS `replace(/\s+/g, ' ')`: every whitespace run becomes one space. -/
def collapseWsAux : Nat → List Char → List Char
  | 0, _ => []
  | _ + 1, [] => []
  | f + 1, c :: cs =>
    if isJsWs c then ' ' :: collapseWsAux f (cs.dropWhile isJsWs)
    else c :: collapseWsAux f cs

/-- `text.replace(/\s+/g, ' ').trim()` (the text-minification of pass 19). -/
def minifyTextContent (s : String) : String := jsTrim ⟨collapseWsAux s.length s.data⟩

/-- Attribute lookup (`$(el).attr(name)`): first binding wins. -/
def attrGet (n : String) (a : List (String × String)) : Option String :=
  (a.find? fun x => x.1 == n).map (·.2)

/-- The HTML void elements: serialized without a closing tag, parsed without children. -/
def voidTags : List String :=
  ["area", "base", "br", "col", "embed", "hr", "img", "input", "link", "meta",
   "param", "source", "track", "wbr"]

/-- Characters allowed in a tag or attribute name by the model parser. -/
def isNameChar (c : Char) : Bool := c.isAlphanum || c == '-' || c == '_' || c == ':'

/-- Attribute-list parsing: `name`, `name=bare`, `name="v"` or `name='v'`, until
`>`, `/` or the end of input. -/
def parseAttrsAux : Nat → List Char → List (String × String) × List Char
  | 0, s => ([], s)
  | f + 1, s =>
    let s1 := s.dropWhile isJsWs
    match s1 with
    | [] => ([], [])
    | '>' :: _ => ([], s1)
    | '/' :: _ => ([], s1)
    | _ =>
      let nm := s1.takeWhile fun c => !(isJsWs c) && !(c == '=') && !(c == '>') && !(c == '/')
      if nm.isEmpty then ([], s1)
      else
        let nameS : String := ⟨nm.map Char.toLower⟩
        let s2 := (s1.drop nm.length).dropWhile isJsWs
        match s2 with
        | '=' :: s3 =>
          let s4 := s3.dropWhile isJsWs
          match s4 with
          | '"' :: s5 =>
            let v := s5.takeWhile fun c => c != '"'
            let q := parseAttrsAux f ((s5.drop v.length).drop 1)
            ((nameS, ⟨v⟩) :: q.1, q.2)
          | '\'' :: s5 =>
            let v := s5.takeWhile fun c => c != '\''
            let q := parseAttrsAux f ((s5.drop v.length).drop 1)
            ((nameS, ⟨v⟩) :: q.1, q.2)
          | _ =>
            let v := s4.takeWhile fun c => !(isJsWs c) && !(c == '>')
            let q := parseAttrsAux f (s4.drop v.length)
            ((nameS, ⟨v⟩) :: q.1, q.2)
        | _ =>
          let q := parseAttrsAux f s2
          ((nameS, "") :: q.1, q.2)

/-- Splits a comment body at the terminating `-->`. -/
def splitAtCommentEnd : Nat → List Char → List Char × List Char
  | 0, s => ([], s)
  | _ + 1, [] => ([], [])
  | _ + 1, '-' :: '-' :: '>' :: r => ([], r)
  | f + 1, c :: r =>
    let q := splitAtCommentEnd f r
    (c :: q.1, q.2)

/-- Consumes a closing tag `</name>` if one starts here. -/
def dropCloseTag (r : List Char) : List Char :=
  match r with
  | '<' :: '/' :: rest => (rest.dropWhile fun c => c != '>').drop 1
  | other => other

/-- Recursive-descent parse of a node sequence, stopping at a closing tag
(models cheerio.load's DOM for well-formed markup). -/
def parseNodesAux : Nat → List Char → List HNode × List Char
  | 0, s => ([], s)
  | _ + 1, [] => ([], [])
  | _ + 1, '<' :: '/' :: rest => ([], '<' :: '/' :: rest)
  | f + 1, '<' :: '!' :: '-' :: '-' :: rest =>
    let bc := splitAtCommentEnd (f + 1) rest
    let r := parseNodesAux f bc.2
    (HNode.comment ⟨bc.1⟩ :: r.1, r.2)
  | f + 1, '<' :: '!' :: rest =>
    parseNodesAux f ((rest.dropWhile fun c => c != '>').drop 1)
  | f + 1, '<' :: c :: rest =>
    if c.isAlpha then
      let tagChars := (c :: rest).takeWhile isNameChar
      let tag : String := ⟨tagChars.map Char.toLower⟩
      let pa := parseAttrsAux f ((c :: rest).drop tagChars.length)
      match pa.2 with
      | '/' :: '>' :: r2 =>
        let r := parseNodesAux f r2
        (HNode.el tag pa.1 [] :: r.1, r.2)
      | '>' :: r2 =>
        if voidTags.contains tag then
          let r := parseNodesAux f r2
          (HNode.el tag pa.1 [] :: r.1, r.2)
        else
          let inner := parseNodesAux f r2
          let r := parseNodesAux f (dropCloseTag inner.2)
          (HNode.el tag pa.1 inner.1 :: r.1, r.2)
      | other => parseNodesAux f other
    else
      let r := parseNodesAux f rest
      (HNode.text "<" :: r.1, r.2)
  | f + 1, s =>
    let t := s.takeWhile fun c => c != '<'
    if t.isEmpty then ([HNode.text ⟨s⟩], [])
    else
      let r := parseNodesAux f (s.drop t.length)
      (HNode.text ⟨t⟩ :: r.1, r.2)

/-- `cheerio.load` modelled on well-formed markup: the document's node list. -/
def cheerioLoad (html : String) : List HNode := (parseNodesAux (html.length + 1) html.data).1

/-- Text-node serialization: `&`, `<`, `>` escaped. -/
def escText (s : String) : String :=
  ⟨(s.data.map fun c =>
      if c == '&' then "&amp;".data
      else if c == '<' then "&lt;".data
      else if c == '>' then "&gt;".data
      else [c]).flatten⟩

/-- Attribute-value serialization: `&` and `"` escaped. -/
def escAttr (s : String) : String :=
  ⟨(s.data.map fun c =>
      if c == '&' then "&amp;".data
      else if c == '"' then "&quot;".data
      else [c]).flatten⟩

/-- Attribute list serialization. -/
def renderAttrs (a : List (String × String)) : String :=
  a.foldl (fun acc x => acc ++ " " ++ x.1 ++ "=\"" ++ escAttr x.2 ++ "\"") ""

/-- Serialization of a node list (`$.html()`): void elements have no closing tag. -/
def renderNodesAux : Nat → List HNode → String
  | 0, _ => ""
  | _ + 1, [] => ""
  | f + 1, HNode.text s :: ns => escText s ++ renderNodesAux f ns
  | f + 1, HNode.comment s :: ns => "<!--" ++ s ++ "-->" ++ renderNodesAux f ns
  | f + 1, HNode.el t a cs :: ns =>
    "<" ++ t ++ renderAttrs a ++ ">" ++
      (if voidTags.contains t then "" else renderNodesAux f cs ++ "</" ++ t ++ ">") ++
      renderNodesAux f ns

/-- JS `optimized.replace(/>\s+</g, '><')`: left-to-right, non-overlapping. -/
def gtWsLtAux : Nat → List Char → List Char
  | 0, _ => []
  | _ + 1, [] => []
  | f + 1, '>' :: rest =>
    (match rest.takeWhile isJsWs, rest.drop (rest.takeWhile isJsWs).length with
     | _ :: _, '<' :: r2 => '>' :: '<' :: gtWsLtAux f r2
     | _, _ => '>' :: gtWsLtAux f rest)
  | f + 1, c :: rest => c :: gtWsLtAux f rest

/-- Index of the last occurrence of a character. -/
def lastIdxOf (x : Char) (l : List Char) : Option Nat :=
  match l.reverse.findIdx? fun c => c == x with
  | some i => some (l.length - 1 - i)
  | none => none

/-- JS `optimized.replace(/^\s+|\s+$/gm, '')`: a global scan where `^\s+` fires at a
line start (greedy, may swallow newlines) and `\s+$` fires when a whitespace run can
end at a line end (backtracking to the last newline inside the run). `prev` is the
original character before the scan position. -/
def lineTrimAux : Nat → Option Char → List Char → List Char
  | 0, _, _ => []
  | _ + 1, _, [] => []
  | f + 1, prev, c :: rest =>
    if isJsWs c then
      let run := (c :: rest).takeWhile isJsWs
      let after := (c :: rest).drop run.length
      if prev = none ∨ prev = some '\n' then
        lineTrimAux f run.getLast? after
      else
        match (if after.isEmpty then some run.length else lastIdxOf '\n' run) with
        | some k =>
          if k = 0 then c :: lineTrimAux f (some c) rest
          else lineTrimAux f (run.drop (k - 1)).head? ((c :: rest).drop k)
        | none => c :: lineTrimAux f (some c) rest
    else c :: lineTrimAux f (some c) rest

/-- JS `optimized.replace(/  +/g, ' ')`: runs of two or more spaces become one. -/
def collapseSpAux : Nat → List Char → List Char
  | 0, _ => []
  | _ + 1, [] => []
  | f + 1, ' ' :: ' ' :: rest => ' ' :: collapseSpAux f (rest.dropWhile fun c => c == ' ')
  | f + 1, c :: rest => c :: collapseSpAux f rest

/-- Snapshot-faithful removal of every element matching a tag/attribute predicate
(the cheerio `$(sel).remove()` passes: a removed subtree's members are detached, so
removal equals a recursive filter on the original tree). -/
def keepFilterAux : Nat → (String → List (String × String) → Bool) → HNode → Option HNode
  | 0, _, n => some n
  | f + 1, p, HNode.el t a cs =>
    if p t a then none else some (HNode.el t a (cs.filterMap (keepFilterAux f p)))
  | _ + 1, _, n => some n

/-- Comment removal: `$('*').contents().filter(nodeType 8).remove()` drops comments
that are children of elements (document-level comments are untouched). -/
def stripCommentsAux : Nat → HNode → HNode
  | 0, n => n
  | f + 1, HNode.el t a cs =>
    HNode.el t a ((cs.filter fun c =>
        match c with
        | HNode.comment _ => false
        | _ => true).map (stripCommentsAux f))
  | _ + 1, n => n

/-- Attribute rewriting on every element (`$('*').each` with `removeAttr`). -/
def mapAttrsAux : Nat → (String → List (String × String) → List (String × String)) →
    HNode → HNode
  | 0, _, n => n
  | f + 1, g, HNode.el t a cs => HNode.el t (g t a) (cs.map (mapAttrsAux f g))
  | _ + 1, _, n => n

/-- The attribute lists of all `link` elements in document order. -/
def collectLinksAux : Nat → HNode → List (List (String × String))
  | 0, _ => []
  | f + 1, HNode.el t a cs =>
    (if t == "link" then [a] else []) ++ (cs.map (collectLinksAux f)).flatten
  | _ + 1, _ => []

/-- `sizes && sizes.includes('180x180')` (JS truthiness: the empty string is falsy). -/
def sizesHas180 (a : List (String × String)) : Bool :=
  match attrGet "sizes" a with
  | some sz => !(sz == "") && decide ("180x180".data <:+: sz.data)
  | none => false

/-- The document-order position of the apple-touch-icon the favicon pass keeps:
`appleIcon180` is overwritten by each match, so the last one wins. -/
def appleIcon180Pos (links : List (List (String × String))) : Option Nat :=
  ((links.enum.filter fun x =>
      attrGet "rel" x.2 == some "apple-touch-icon" && sizesHas180 x.2).getLast?).map (·.1)

/-- Mutable state of the favicon dedup pass. -/
structure FavSt where
  manifestKept : Bool
  faviconKept : Bool
  appleIconKept : Bool

/-- One step of the favicon dedup pass over the link at position `i`: whether the
link is removed, and the updated state (src/index.ts second `$('link').each` pass). -/
def favStep (ap180 : Option Nat) (st : FavSt) (i : Nat)
    (a : List (String × String)) : Bool × FavSt :=
  match attrGet "rel" a with
  | some rel =>
    if rel = "manifest" then
      if st.manifestKept then (true, st) else (false, { st with manifestKept := true })
    else if rel = "icon" ∧ ¬ ("apple-touch-icon".data <:+: rel.data) then
      if st.faviconKept then (true, st) else (false, { st with faviconKept := true })
    else if rel = "apple-touch-icon" then
      if ap180 = some i then
        (false, if st.appleIconKept then st else { st with appleIconKept := true })
      else if ap180.isSome then (true, st)
      else if st.appleIconKept then (true, st)
      else (false, { st with appleIconKept := true })
    else (false, st)
  | none => (false, st)

/-- The positions of the links the favicon pass removes. -/
def favDrops (ap180 : Option Nat) (links : List (List (String × String))) : List Nat :=
  (links.enum.foldl (fun acc x =>
      let q := favStep ap180 acc.2 x.1 x.2
      (if q.1 then acc.1 ++ [x.1] else acc.1, q.2))
    (([] : List Nat), ({ manifestKept := false, faviconKept := false,
                         appleIconKept := false } : FavSt))).1

/-- Drops the links whose document-order position is listed, threading the counter. -/
def dropLinksAux : Nat → List Nat → HNode → Nat → Option HNode × Nat
  | 0, _, n, i => (some n, i)
  | f + 1, drops, HNode.el t a cs, i =>
    let start := if t == "link" then i + 1 else i
    let r := cs.foldl (fun acc c =>
        let q := dropLinksAux f drops c acc.2
        (match q.1 with
         | some m => acc.1 ++ [m]
         | none => acc.1, q.2))
      (([] : List HNode), start)
    (if t == "link" && drops.contains i then none else some (HNode.el t a r.1), r.2)
  | _ + 1, _, n, i => (some n, i)

/-- The favicon handling pass (manifest/icon/apple-touch-icon dedup). -/
def faviconPass (fuel : Nat) (roots : List HNode) : List HNode :=
  let links := (roots.map (collectLinksAux fuel)).flatten
  let drops := favDrops (appleIcon180Pos links) links
  (roots.foldl (fun acc r =>
      let q := dropLinksAux fuel drops r acc.2
      (match q.1 with
       | some m => acc.1 ++ [m]
       | none => acc.1, q.2)) (([] : List HNode), 0)).1

/-- `$('[hidden], [style*="display:none"], [style*="display: none"],
[style*="visibility:hidden"]')`. -/
def hiddenPred (a : List (String × String)) : Bool :=
  (attrGet "hidden" a).isSome ||
    (match attrGet "style" a with
     | some v => decide ("display:none".data <:+: v.data) ||
         decide ("display: none".data <:+: v.data) ||
         decide ("visibility:hidden".data <:+: v.data)
     | none => false)

/-- `$el.text()`: concatenated text of the subtree (comments excluded). -/
def textContentAux : Nat → HNode → String
  | 0, _ => ""
  | _ + 1, HNode.text s => s
  | f + 1, HNode.el _ _ cs => String.join (cs.map (textContentAux f))
  | _ + 1, HNode.comment _ => ""

/-- Whether a children list has an element member (`$el.children().length`). -/
def hasElemChild (cs : List HNode) : Bool :=
  cs.any fun c =>
    match c with
    | HNode.el _ _ _ => true
    | _ => false

/-- The tags the empty-element pass never removes. -/
def keepTags : List String :=
  ["script", "style", "meta", "link", "img", "br", "hr", "input", "source", "track",
   "area", "col", "embed", "param", "wbr"]

/-- The empty-element pass: `$('body *')` is a document-order snapshot, a parent is
examined before any of its descendants is removed, and removal of an element never
changes a later snapshot member's subtree, so each element is judged on its original
subtree — a removal that empties an ancestor leaves that ancestor in place. -/
def emptyFilterAux : Nat → HNode → Option HNode
  | 0, n => some n
  | f + 1, HNode.el t a cs =>
    if keepTags.contains t ∨ a ≠ [] ∨ hasElemChild cs = true ∨
        jsTrim (String.join (cs.map (textContentAux f))) ≠ "" then
      some (HNode.el t a (cs.filterMap (emptyFilterAux f)))
    else none
  | _ + 1, n => some n

/-- The text-minification pass on an element of `$('body').find('*')`: whitespace-only
text children are dropped, other text children are collapsed and trimmed. -/
def minifyTextAux : Nat → HNode → HNode
  | 0, n => n
  | f + 1, HNode.el t a cs =>
    HNode.el t a (cs.filterMap fun c =>
      match c with
      | HNode.text s => if jsTrim s = "" then none else some (HNode.text (minifyTextContent s))
      | n => some (minifyTextAux f n))
  | _ + 1, n => n

/-- Applies a transform to the children of every `body` element (well-formed documents
have exactly one). -/
def applyBodyAux : Nat → (List HNode → List HNode) → HNode → HNode
  | 0, _, n => n
  | f + 1, g, HNode.el t a cs =>
    if t == "body" then HNode.el t a (g cs) else HNode.el t a (cs.map (applyBodyAux f g))
  | _ + 1, _, n => n

/-- The DOM passes of `optimizeHtmlForSEO` in source order (default options: all
removals enabled). -/
def optimizePasses (fuel : Nat) (roots : List HNode) : List HNode :=
  let r := roots.filterMap (keepFilterAux fuel fun t a =>
    t == "script" && !(attrGet "type" a == some "application/ld+json"))
  let r := r.filterMap (keepFilterAux fuel fun t a =>
    t == "link" && (attrGet "rel" a == some "preload" || attrGet "rel" a == some "prefetch" ||
      attrGet "rel" a == some "dns-prefetch" || attrGet "rel" a == some "modulepreload"))
  let r := r.filterMap (keepFilterAux fuel fun t a =>
    t == "link" && attrGet "rel" a == some "preconnect")
  let r := r.filterMap (keepFilterAux fuel fun t a =>
    t == "link" && attrGet "rel" a == some "stylesheet")
  let r := r.filterMap (keepFilterAux fuel fun t _ => t == "style")
  let r := faviconPass fuel r
  let r := r.filterMap (keepFilterAux fuel fun t a =>
    t == "link" && attrGet "rel" a == some "mask-icon")
  let r := r.filterMap (keepFilterAux fuel fun t a =>
    t == "meta" && (match attrGet "name" a with
      | some n => "msapplication".isPrefixOf n
      | none => false))
  let r := r.map (mapAttrsAux fuel fun _ a => a.filter fun x => !(x.1 == "data-testid"))
  let r := r.filterMap (keepFilterAux fuel fun t a =>
    t == "meta" && attrGet "name" a == some "next-head-count")
  let r := r.map (stripCommentsAux fuel)
  let r := r.filterMap (keepFilterAux fuel fun t _ => t == "noscript")
  let r := r.filterMap (keepFilterAux fuel fun _ a => hiddenPred a)
  let r := r.map (mapAttrsAux fuel fun t a =>
    if t == "meta" then a else a.filter fun x => !("data-".isPrefixOf x.1))
  let r := r.map (mapAttrsAux fuel fun _ a => a.filter fun x => !("aria-".isPrefixOf x.1))
  let r := r.map (mapAttrsAux fuel fun _ a => a.filter fun x => !("on".isPrefixOf x.1))
  let r := r.map (mapAttrsAux fuel fun _ a => a.filter fun x => !(x.1 == "style"))
  let r := r.map (applyBodyAux fuel fun cs => cs.filterMap (emptyFilterAux fuel))
  let r := r.map (applyBodyAux fuel fun cs => cs.map fun c =>
    match c with
    | HNode.el _ _ _ => minifyTextAux fuel c
    | _ => c)
  r

/-- `optimizeHtmlForSEO` (src/index.ts lines 942-1176, default options): cheerio
load, the DOM passes, `$.html()`, then the three regex minifications. -/
def optimizeHtmlForSEO (html : String) : String :=
  let fuel := html.length + 1
  let out := renderNodesAux fuel (optimizePasses fuel (cheerioLoad html))
  let out := (⟨gtWsLtAux (out.length + 1) out.data⟩ : String)
  let out := (⟨lineTrimAux (out.length + 1) none out.data⟩ : String)
  (⟨collapseSpAux (out.length + 1) out.data⟩ : String)

/-- The failing input for C8: a non-empty element whose only child is an empty one. -/
def htmlC8 : String := "<html><head></head><body><div><span></span></div></body></html>"

/-- **C8**: the optimizer is not idempotent. On `htmlC8` the first application removes
the empty `<span>` but keeps `<div>` (judged with its child still present), so the
output still contains `<div></div>`; the second application removes the now-empty
`<div>`, so `optimize (optimize html) ≠ optimize html` with default options. -/
theorem C8_optimizer_not_idempotent :
    optimizeHtmlForSEO htmlC8
        = "<html><head></head><body><div></div></body></html>" ∧
      optimizeHtmlForSEO (optimizeHtmlForSEO htmlC8)
        = "<html><head></head><body></body></html>" ∧
      optimizeHtmlForSEO (optimizeHtmlForSEO htmlC8) ≠ optimizeHtmlForSEO htmlC8 :=
  ⟨rfl, rfl, by decide⟩

end RenderX
